import Mathlib

/-!
# Sia renter: contract proposal and file rental

A shallow embedding of `sia/renter/rent.go` (`proposeContract`, `RentFile`).

* Go's fixed-width integers are naturals reduced modulo a power of two after
  every operation.  The declarations of `consensus.BlockHeight` and
  `consensus.Currency` live in another package, so their widths are
  parameters (`Widths`).
* The host database, the wallet, the consensus state, the file system and the
  network are collaborators: their answers come from an environment `Env σ`
  over an abstract world state `σ`, threaded explicitly.
* Every interaction is appended, with its arguments and its answer, to a list
  of `Event`s, so that "was called", "how often" and "in which order" are
  statements about that list.
-/

namespace Sia

/-! ## Data model -/

/-- An `error` value, identified with its message (`errors.New(msg)`). -/
abbrev Err := String

/-- One byte of file content. -/
abbrev Byte := Nat

/-- A `hash.Hash` digest, kept abstract. -/
abbrev Hash := Nat

/-- A `consensus.CoinAddress`; the zero value `CoinAddress{}` is `0`. -/
abbrev CoinAddress := Nat

/-- A `consensus.Transaction`, which the renter only passes along. -/
abbrev Transaction := Nat

instance instDecidableEqExcept {ε α : Type} [DecidableEq ε] [DecidableEq α] :
    DecidableEq (Except ε α) := fun a b =>
  match a, b with
  | .ok x, .ok y =>
    if h : x = y then isTrue (by rw [h]) else isFalse (fun h2 => h (by cases h2; rfl))
  | .error x, .error y =>
    if h : x = y then isTrue (by rw [h]) else isFalse (fun h2 => h (by cases h2; rfl))
  | .ok _, .error _ => isFalse (fun h => by cases h)
  | .error _, .ok _ => isFalse (fun h => by cases h)

/-- The fields of `components.HostEntry` that `proposeContract` reads. -/
structure HostEntry where
  ID : Nat
  IPAddress : String
  Price : Nat
  Burn : Nat
  Window : Nat
  Tolerance : Nat
  CoinAddress : CoinAddress
deriving DecidableEq, Repr

/-- The `consensus.FileContract` literal built at rent.go:57-69. -/
structure FileContract where
  ContractFund : Nat
  FileMerkleRoot : Hash
  FileSize : Nat
  Start : Nat
  End : Nat
  ChallengeWindow : Nat
  Tolerance : Nat
  ValidProofPayout : Nat
  ValidProofAddress : CoinAddress
  MissedProofPayout : Nat
  MissedProofAddress : CoinAddress
deriving DecidableEq, Repr

/-- The renter's `FilePiece`: the host that accepted and the contract. -/
structure FilePiece where
  Host : HostEntry
  Contract : FileContract
deriving DecidableEq, Repr

/-- The renter's `FileEntry`: the pieces of one rented file. -/
structure FileEntry where
  Pieces : List FilePiece
deriving DecidableEq, Repr

/-- The fields of `components.RentFileParameters` that `RentFile` reads. -/
structure RentFileParameters where
  Filepath : String
  Nickname : String
  TotalPieces : Int
deriving DecidableEq, Repr

/-! ## Machine integers -/

/-- Bit widths of the integer types whose declarations are outside this file:
`consensus.BlockHeight` and `consensus.Currency` (unsigned) and Go's `int`
(signed, platform dependent). -/
structure Widths where
  heightBits : Nat
  currencyBits : Nat
  intBits : Nat
deriving DecidableEq, Repr

/-- Widths of 64 bits throughout: `uint64` for both consensus types, as the
upstream consensus package declares them, and a 64-bit `int`. -/
def widths64 : Widths := ⟨64, 64, 64⟩

/-- The same with a 32-bit `BlockHeight`. -/
def widths32 : Widths := ⟨32, 64, 64⟩

/-- The 64-bit consensus types on a platform whose `int` has 32 bits. -/
def widthsInt32 : Widths := ⟨64, 64, 32⟩

/-- Conversion to `consensus.BlockHeight`. -/
def Widths.height (W : Widths) (x : Nat) : Nat := x % 2 ^ W.heightBits

/-- Conversion to `consensus.Currency`. -/
def Widths.currency (W : Widths) (x : Nat) : Nat := x % 2 ^ W.currencyBits

/-- Addition of two `BlockHeight`s. -/
def Widths.hadd (W : Widths) (a b : Nat) : Nat := W.height (a + b)

/-- Addition of two `Currency` values. -/
def Widths.cadd (W : Widths) (a b : Nat) : Nat := W.currency (a + b)

/-- Multiplication of two `Currency` values. -/
def Widths.cmul (W : Widths) (a b : Nat) : Nat := W.currency (a * b)

/-- Conversion to `uint64`. -/
def toUint64 (x : Nat) : Nat := x % 2 ^ 64

/-- A mathematical integer wrapped into Go's signed `int`. -/
def Widths.int (W : Widths) (x : Int) : Int :=
  (x + 2 ^ (W.intBits - 1)) % 2 ^ W.intBits - 2 ^ (W.intBits - 1)

/-- Conversion of an `int` to `consensus.BlockHeight`. -/
def Widths.heightOfInt (W : Widths) (x : Int) : Nat := (x % 2 ^ W.heightBits).toNat

/-- The duration `consensus.BlockHeight(2000+1000*i)` of rent.go:150. -/
def rentDuration (W : Widths) (i : Nat) : Nat :=
  W.heightOfInt (W.int (2000 + W.int (1000 * (i : Int))))

/-! ## Contract terms (rent.go:53-69) -/

/-- The delay `consensus.BlockHeight(20)` of rent.go:55. -/
def delay : Nat := 20

/-- The fund `contractFund` of rent.go:56. -/
def contractFund (W : Widths) (host : HostEntry) (size duration : Nat) : Nat :=
  W.cmul
    (W.cadd (W.cmul host.Price (W.currency (W.hadd duration delay)))
      (W.cmul host.Burn (W.currency duration)))
    (W.currency size)

/-- The contract of rent.go:57-69 for a host, a file of `size` bytes with
Merkle root `merkle`, the chain height `height` and the requested duration. -/
def fileContractFor (W : Widths) (host : HostEntry) (size : Nat) (merkle : Hash)
    (height duration : Nat) : FileContract :=
  { ContractFund := contractFund W host size duration
    FileMerkleRoot := merkle
    FileSize := toUint64 size
    Start := W.hadd height delay
    End := W.hadd (W.hadd height duration) delay
    ChallengeWindow := host.Window
    Tolerance := host.Tolerance
    ValidProofPayout := W.cmul (W.cmul host.Price (W.currency size)) (W.currency host.Window)
    ValidProofAddress := host.CoinAddress
    MissedProofPayout := W.cmul (W.cmul host.Burn (W.currency size)) (W.currency host.Window)
    MissedProofAddress := 0 }

/-- The miner fee `consensus.Currency(10)` of rent.go:72. -/
def minerFee (W : Widths) : Nat := W.currency 10

/-- The renter's portion of rent.go:73. -/
def renterPortion (W : Widths) (host : HostEntry) (fc : FileContract) (duration : Nat) : Nat :=
  W.cmul (W.cmul host.Price (W.currency duration)) (W.currency fc.FileSize)

/-! ## Collaborators -/

/-- An open file: the content read at `os.Open` and the read cursor. -/
structure File where
  content : List Byte
  pos : Nat
deriving DecidableEq, Repr

/-- The collaborators of the renter over a world state `σ`: each operation
takes the world and returns its answer with the next world.  An `Option Err`
answer is Go's `error` (`none` is `nil`). -/
structure Env (σ : Type) where
  /-- The call `os.Open(filename)`, answering the file's content. -/
  openFile : String → σ → Except Err (List Byte) × σ
  /-- The call `file.Stat()`; the size it reports is the content's length. -/
  statFile : σ → Option Err × σ
  /-- The function `hash.CalculateSegments`. -/
  calculateSegments : Nat → Nat
  /-- The function `hash.ReaderMerkleRoot` on the bytes it reads. -/
  readerMerkleRoot : List Byte → Nat → Except Err Hash
  /-- The call `file.Seek(0, 0)`. -/
  seekFile : σ → Option Err × σ
  /-- The call `r.state.Height()`: a read that leaves the world as it is, so
  the two reads of rent.go:61-62 see one height. -/
  height : σ → Nat
  /-- The call `r.hostDB.RandomHost()`. -/
  randomHost : σ → Except Err HostEntry × σ
  /-- The call `r.hostDB.FlagHost(id)`. -/
  flagHost : Nat → σ → Option Err × σ
  /-- The call `r.wallet.RegisterTransaction(consensus.Transaction{})`. -/
  registerTransaction : σ → Except Err String × σ
  /-- The call `r.wallet.FundTransaction(id, amount)`. -/
  fundTransaction : String → Nat → σ → Option Err × σ
  /-- The call `r.wallet.AddMinerFee(id, fee)`. -/
  addMinerFee : String → Nat → σ → Option Err × σ
  /-- The call `r.wallet.AddFileContract(id, fc)`. -/
  addFileContract : String → FileContract → σ → Option Err × σ
  /-- The call `r.wallet.SignTransaction(id, wholeTransaction)`. -/
  signTransaction : String → Bool → σ → Except Err Transaction × σ
  /-- The opening of the connection by `host.IPAddress.Call`. -/
  dial : String → σ → Option Err × σ
  /-- The call `encoding.WriteObject(conn, transaction)`. -/
  writeObject : Transaction → σ → Option Err × σ
  /-- The call `encoding.ReadObject(conn, &response, maxLen)`. -/
  readObject : Nat → σ → Except Err String × σ
  /-- One `conn.Write(p)`: the number of bytes taken and the error. -/
  connWrite : List Byte → σ → (Nat × Option Err) × σ
  /-- The constant `components.AcceptContractResponse`. -/
  acceptContractResponse : String

/-- One interaction of the renter with a collaborator, with its answer. -/
inductive Event where
  | openFile (filename : String) (err : Option Err)
  | statFile (err : Option Err)
  | merkleRoot (r : Except Err Hash)
  | seekFile (err : Option Err)
  | randomHost (r : Except Err HostEntry)
  | registerTransaction (r : Except Err String)
  | fundTransaction (id : String) (amount : Nat) (err : Option Err)
  | addMinerFee (id : String) (fee : Nat) (err : Option Err)
  | addFileContract (id : String) (fc : FileContract) (err : Option Err)
  | signTransaction (id : String) (whole : Bool) (r : Except Err Transaction)
  | call (host : HostEntry) (err : Option Err)
  | writeObject (t : Transaction) (err : Option Err)
  | readObject (maxLen : Nat) (r : Except Err String)
  | connWrite (data : List Byte) (n : Nat) (err : Option Err)
  | println (err : Err)
  | flagHost (id : Nat) (err : Option Err)
deriving DecidableEq

/-- How a call that may loop ended: with a value, with an error, or with the
fuel of the model used up before the loop of the code ended. -/
inductive Outcome (α : Type) where
  | done (a : α)
  | failed (e : Err)
  | outOfFuel
deriving DecidableEq

/-! ## Streaming the file (`io.CopyN`, rent.go:113) -/

/-- The buffer length of `io.Copy`. -/
def copyBufSize : Nat := 32 * 1024

/-- The error `io.EOF`. -/
def errEOF : Err := "EOF"

/-- The error `io.ErrShortWrite`. -/
def errShortWrite : Err := "short write"

/-- The error of `io.Copy` for a writer that reports more than it was given. -/
def errInvalidWrite : Err := "invalid write result"

/-- The result of a copy: bytes written, error, file and world afterwards,
events. -/
structure CopyResult (σ : Type) where
  written : Nat
  err : Option Err
  file : File
  world : σ
  events : List Event

/-- What `io.Copy` makes of one `Write` of `len` bytes that answered
`(nw, ew)`: the bytes it counts as written and the error it stops with. -/
def countWrite (len nw : Nat) (ew : Option Err) : Nat × Option Err :=
  if len < nw then (0, some (ew.getD errInvalidWrite))
  else
    match ew with
    | some e => (nw, some e)
    | none => if len ≠ nw then (nw, some errShortWrite) else (nw, none)

/-- The loop of `io.Copy` from a reader limited to `limit` more bytes of the
file into the connection: read up to a buffer from the cursor, hand it to
`conn.Write`, stop at the end of the data or on a write error.  Reads of the
opened file do not fail.  Each round consumes a byte of `limit`, so `limit + 1`
rounds of fuel end it. -/
def copyLoop {σ : Type} (env : Env σ) : Nat → Nat → Nat → File → σ → CopyResult σ
  | 0, _, written, file, s => ⟨written, none, file, s, []⟩
  | fuel + 1, limit, written, file, s =>
    let chunk := (file.content.drop file.pos).take (min copyBufSize limit)
    if chunk = [] then ⟨written, none, file, s, []⟩
    else
      let w := env.connWrite chunk s
      let file1 : File := { file with pos := file.pos + chunk.length }
      let c := countWrite chunk.length w.1.1 w.1.2
      match c.2 with
      | some e => ⟨written + c.1, some e, file1, w.2, [.connWrite chunk w.1.1 w.1.2]⟩
      | none =>
        let r := copyLoop env fuel (limit - chunk.length) (written + c.1) file1 w.2
        { r with events := .connWrite chunk w.1.1 w.1.2 :: r.events }

/-- The call `io.CopyN(conn, file, n)`: nil exactly when `n` bytes were
written, `io.EOF` when the file ran out first. -/
def copyN {σ : Type} (env : Env σ) (n : Nat) (file : File) (s : σ) : CopyResult σ :=
  let r := copyLoop env (n + 1) n 0 file s
  if r.written = n then { r with err := none }
  else if r.written < n ∧ r.err = none then { r with err := some errEOF }
  else r

/-! ## One negotiation (rent.go:98-115) -/

/-- The call `host.IPAddress.Call("NegotiateContract", ...)`: open the
connection, send the transaction, read the response, and on the acceptance
marker stream `size` bytes of the file from its cursor. -/
def negotiateContract {σ : Type} (env : Env σ) (host : HostEntry) (txn : Transaction)
    (size : Nat) (file : File) (s : σ) : CopyResult σ :=
  match env.dial host.IPAddress s with
  | (some e, s1) => ⟨0, some e, file, s1, [.call host (some e)]⟩
  | (none, s1) =>
    match env.writeObject txn s1 with
    | (some e, s2) => ⟨0, some e, file, s2, [.call host none, .writeObject txn (some e)]⟩
    | (none, s2) =>
      match env.readObject 128 s2 with
      | (.error e, s3) =>
        ⟨0, some e, file, s3,
          [.call host none, .writeObject txn none, .readObject 128 (.error e)]⟩
      | (.ok response, s3) =>
        if response ≠ env.acceptContractResponse then
          ⟨0, some response, file, s3,
            [.call host none, .writeObject txn none, .readObject 128 (.ok response)]⟩
        else
          let r := copyN env size file s3
          { r with events :=
              [.call host none, .writeObject txn none, .readObject 128 (.ok response)]
                ++ r.events }

/-! ## One attempt of the retry loop (rent.go:48-124) -/

/-- The wallet calls of rent.go:71-95: register a transaction, fund it, add
the miner fee, add the contract, sign.  The first error ends them. -/
def fundAndSign {σ : Type} (env : Env σ) (W : Widths) (host : HostEntry) (fc : FileContract)
    (duration : Nat) (s : σ) : Except Err Transaction × σ × List Event :=
  match env.registerTransaction s with
  | (.error e, s1) => (.error e, s1, [.registerTransaction (.error e)])
  | (.ok id, s1) =>
    let amount := W.cadd (renterPortion W host fc duration) (minerFee W)
    match env.fundTransaction id amount s1 with
    | (some e, s2) =>
      (.error e, s2, [.registerTransaction (.ok id), .fundTransaction id amount (some e)])
    | (none, s2) =>
      match env.addMinerFee id (minerFee W) s2 with
      | (some e, s3) =>
        (.error e, s3, [.registerTransaction (.ok id), .fundTransaction id amount none,
          .addMinerFee id (minerFee W) (some e)])
      | (none, s3) =>
        match env.addFileContract id fc s3 with
        | (some e, s4) =>
          (.error e, s4, [.registerTransaction (.ok id), .fundTransaction id amount none,
            .addMinerFee id (minerFee W) none, .addFileContract id fc (some e)])
        | (none, s4) =>
          match env.signTransaction id false s4 with
          | (.error e, s5) =>
            (.error e, s5, [.registerTransaction (.ok id), .fundTransaction id amount none,
              .addMinerFee id (minerFee W) none, .addFileContract id fc none,
              .signTransaction id false (.error e)])
          | (.ok txn, s5) =>
            (.ok txn, s5, [.registerTransaction (.ok id), .fundTransaction id amount none,
              .addMinerFee id (minerFee W) none, .addFileContract id fc none,
              .signTransaction id false (.ok txn)])

/-- How one pass through the body of the loop ends: `return` with an error,
the `break` with the host and its contract, or the next pass. -/
inductive AttemptResult where
  | fatal (e : Err)
  | accepted (host : HostEntry) (fc : FileContract)
  | retry
deriving DecidableEq

/-- The state after one pass through the body of the loop. -/
structure Step (σ : Type) where
  result : AttemptResult
  file : File
  world : σ
  events : List Event

/-- One pass through the body of the loop of rent.go:47-125 for a file of
`size` bytes with Merkle root `merkle`. -/
def attempt {σ : Type} (env : Env σ) (W : Widths) (merkle : Hash) (size duration : Nat)
    (file : File) (s : σ) : Step σ :=
  match env.randomHost s with
  | (.error e, s1) => ⟨.fatal e, file, s1, [.randomHost (.error e)]⟩
  | (.ok host, s1) =>
    let fc := fileContractFor W host size merkle (env.height s1) duration
    match fundAndSign env W host fc duration s1 with
    | (.error e, s2, evs) => ⟨.fatal e, file, s2, .randomHost (.ok host) :: evs⟩
    | (.ok txn, s2, evs) =>
      let r := negotiateContract env host txn size file s2
      match r.err with
      | none =>
        ⟨.accepted host fc, r.file, r.world, .randomHost (.ok host) :: (evs ++ r.events)⟩
      | some e =>
        match env.flagHost host.ID r.world with
        | (some e2, s3) =>
          ⟨.fatal e2, r.file, s3, .randomHost (.ok host) ::
            (evs ++ r.events ++ [.println e, .flagHost host.ID (some e2)])⟩
        | (none, s3) =>
          ⟨.retry, r.file, s3, .randomHost (.ok host) ::
            (evs ++ r.events ++ [.println e, .flagHost host.ID none])⟩

/-! ## `proposeContract` (rent.go:21-134) -/

/-- The result of a call: how it ended, the world afterwards, its events. -/
structure Run (σ : Type) (α : Type) where
  outcome : Outcome α
  world : σ
  events : List Event

/-- The loop `for { ... }` of rent.go:47-125, with `fuel` passes at most. -/
def proposeLoop {σ : Type} (env : Env σ) (W : Widths) (merkle : Hash) (size duration : Nat) :
    Nat → File → σ → Run σ FilePiece
  | 0, _, s => ⟨.outOfFuel, s, []⟩
  | fuel + 1, file, s =>
    let st := attempt env W merkle size duration file s
    match st.result with
    | .fatal e => ⟨.failed e, st.world, st.events⟩
    | .accepted host fc => ⟨.done ⟨host, fc⟩, st.world, st.events⟩
    | .retry =>
      let r := proposeLoop env W merkle size duration fuel st.file st.world
      { r with events := st.events ++ r.events }

/-- The start of `proposeContract` (rent.go:23-39): open the file, take its
size, compute the Merkle root, rewind.  It answers the content and the root. -/
def openAndHash {σ : Type} (env : Env σ) (filename : String) (s : σ) :
    Except Err (List Byte × Hash) × σ × List Event :=
  match env.openFile filename s with
  | (.error e, s1) => (.error e, s1, [.openFile filename (some e)])
  | (.ok content, s1) =>
    match env.statFile s1 with
    | (some e, s2) => (.error e, s2, [.openFile filename none, .statFile (some e)])
    | (none, s2) =>
      match env.readerMerkleRoot content (env.calculateSegments (toUint64 content.length)) with
      | .error e =>
        (.error e, s2, [.openFile filename none, .statFile none, .merkleRoot (.error e)])
      | .ok merkle =>
        match env.seekFile s2 with
        | (some e, s3) =>
          (.error e, s3, [.openFile filename none, .statFile none, .merkleRoot (.ok merkle),
            .seekFile (some e)])
        | (none, s3) =>
          (.ok (content, merkle), s3, [.openFile filename none, .statFile none,
            .merkleRoot (.ok merkle), .seekFile none])

/-- The method `proposeContract`: the start, then the loop on the rewound
file.  The deferred `file.Close()` is not modelled. -/
def proposeContract {σ : Type} (env : Env σ) (W : Widths) (fuel : Nat) (filename : String)
    (duration : Nat) (s : σ) : Run σ FilePiece :=
  match openAndHash env filename s with
  | (.error e, s1, evs) => ⟨.failed e, s1, evs⟩
  | (.ok (content, merkle), s1, evs) =>
    let r := proposeLoop env W merkle content.length duration fuel ⟨content, 0⟩ s1
    { r with events := evs ++ r.events }

/-- The first `k` passes of the loop when each of them ends in the next pass
(its negotiation failed and the host was flagged): the file and the world
after them and the events of each pass.  `none` when one of the `k` passes
ends the loop. -/
def retries {σ : Type} (env : Env σ) (W : Widths) (merkle : Hash) (size duration : Nat) :
    Nat → File → σ → Option (File × σ × List (List Event))
  | 0, file, s => some (file, s, [])
  | k + 1, file, s =>
    let st := attempt env W merkle size duration file s
    match st.result with
    | .retry =>
      match retries env W merkle size duration k st.file st.world with
      | some (f, w, evs) => some (f, w, st.events :: evs)
      | none => none
    | _ => none

/-! ## `RentFile` (rent.go:137-159) -/

/-- The renter's table `r.files`. -/
structure Renter where
  files : String → Option FileEntry

/-- The error of rent.go:143. -/
def errNicknameExists : Err := "file of that nickname already exists"

/-- One call of `proposeContract` made by `RentFile`: its arguments, how it
ended and its events. -/
structure Call where
  filename : String
  duration : Nat
  outcome : Outcome FilePiece
  events : List Event

/-- The piece a call returned, if it returned one. -/
def Call.piece (c : Call) : Option FilePiece :=
  match c.outcome with
  | .done p => some p
  | _ => none

/-- The result of `RentFile` or of its loop: how it ended, the world
afterwards, and the calls of `proposeContract` it made, in order. -/
structure RentRun (σ : Type) (α : Type) where
  outcome : Outcome α
  world : σ
  calls : List Call

/-- The loop of rent.go:148-155 with `remaining` passes to go, at index `i`,
with the pieces collected so far. -/
def rentPieces {σ : Type} (env : Env σ) (W : Widths) (fuel : Nat) (filepath : String) :
    Nat → Nat → List FilePiece → σ → RentRun σ (List FilePiece)
  | 0, _, pieces, s => ⟨.done pieces, s, []⟩
  | remaining + 1, i, pieces, s =>
    let r := proposeContract env W fuel filepath (rentDuration W i) s
    let c : Call := ⟨filepath, rentDuration W i, r.outcome, r.events⟩
    match r.outcome with
    | .failed e => ⟨.failed e, r.world, [c]⟩
    | .outOfFuel => ⟨.outOfFuel, r.world, [c]⟩
    | .done piece =>
      let r2 := rentPieces env W fuel filepath remaining (i + 1) (pieces ++ [piece]) r.world
      { r2 with calls := c :: r2.calls }

/-- The method `RentFile`, answering its result and the renter's table
afterwards.  The lock is held for the whole call, so the call is one
sequential step on the table. -/
def RentFile {σ : Type} (env : Env σ) (W : Widths) (fuel : Nat) (rfp : RentFileParameters)
    (r : Renter) (s : σ) : RentRun σ Unit × Renter :=
  match r.files rfp.Nickname with
  | some _ => (⟨.failed errNicknameExists, s, []⟩, r)
  | none =>
    let run := rentPieces env W fuel rfp.Filepath rfp.TotalPieces.toNat 0 [] s
    match run.outcome with
    | .failed e => (⟨.failed e, run.world, run.calls⟩, r)
    | .outOfFuel => (⟨.outOfFuel, run.world, run.calls⟩, r)
    | .done pieces =>
      (⟨.done (), run.world, run.calls⟩,
        ⟨fun k => if k = rfp.Nickname then some ⟨pieces⟩ else r.files k⟩)

/-! ## A concrete world

A host directory that offers the first host not yet flagged, a wallet that
always succeeds, and hosts whose answers and connections are described per
network address.  It instantiates the theorems below at concrete inputs. -/

/-- The world of the concrete environment. -/
structure World where
  /-- The hosts not yet flagged, in the order the directory offers them. -/
  hosts : List HostEntry
  /-- The chain height. -/
  height : Nat
  /-- The address the open connection leads to. -/
  peer : String
deriving DecidableEq, Repr

/-- The behaviour of the hosts and the file of the concrete environment. -/
structure Net where
  /-- The content of the file. -/
  content : List Byte
  /-- The response of the host at an address. -/
  respond : String → String
  /-- The number of payload bytes its connection takes before it breaks
  (`none`: it never breaks). -/
  capacity : String → Option Nat

/-- The concrete environment over `World` for a `Net`. -/
def simEnv (net : Net) : Env World where
  openFile := fun _ s => (.ok net.content, s)
  statFile := fun s => (none, s)
  calculateSegments := fun n => (n + 63) / 64
  readerMerkleRoot := fun data _ => .ok data.sum
  seekFile := fun s => (none, s)
  height := fun s => s.height
  randomHost := fun s =>
    match s.hosts with
    | [] => (.error "no hosts", s)
    | h :: _ => (.ok h, s)
  flagHost := fun id s => (none, { s with hosts := s.hosts.filter (fun h => h.ID ≠ id) })
  registerTransaction := fun s => (.ok "tx", s)
  fundTransaction := fun _ _ s => (none, s)
  addMinerFee := fun _ _ s => (none, s)
  addFileContract := fun _ _ s => (none, s)
  signTransaction := fun _ _ s => (.ok 7, s)
  dial := fun addr s => (none, { s with peer := addr })
  writeObject := fun _ s => (none, s)
  readObject := fun _ s => (.ok (net.respond s.peer), s)
  connWrite := fun data s =>
    match net.capacity s.peer with
    | none => ((data.length, none), s)
    | some c =>
      if data.length ≤ c then ((data.length, none), s) else ((c, some "broken pipe"), s)
  acceptContractResponse := "accept"

/-- A host at address `addr` with identifier `id`, price 1, no burn, window
5 and tolerance 1. -/
def hostAt (id : Nat) (addr : String) : HostEntry :=
  { ID := id, IPAddress := addr, Price := 1, Burn := 0, Window := 5, Tolerance := 1,
    CoinAddress := 40 + id }

/-- Host A. -/
def hostA : HostEntry := hostAt 1 "a"

/-- Host B. -/
def hostB : HostEntry := hostAt 2 "b"

/-- A ten-byte file. -/
def tenBytes : List Byte := [0, 1, 2, 3, 4, 5, 6, 7, 8, 9]

/-- Every host accepts and every connection holds. -/
def netAccept : Net := ⟨tenBytes, fun _ => "accept", fun _ => none⟩

/-- Host A answers "out of space"; every other host accepts. -/
def netReject : Net :=
  ⟨tenBytes, fun addr => if addr = "a" then "out of space" else "accept", fun _ => none⟩

/-- Every host accepts; the connection to host A breaks after one payload
byte. -/
def netBreak : Net :=
  ⟨[7, 9], fun _ => "accept", fun addr => if addr = "a" then some 1 else none⟩

/-- The world at chain height 100 with the given hosts. -/
def worldOf (hosts : List HostEntry) : World := ⟨hosts, 100, ""⟩

/-- The payload bytes that the connections took, in order. -/
def payloadBytes : List Event → List Byte
  | [] => []
  | .connWrite data n _ :: rest => data.take n ++ payloadBytes rest
  | _ :: rest => payloadBytes rest

/-! ## Reading the events -/

/-- The error of a wallet call that failed. -/
def Event.walletError : Event → Option Err
  | .registerTransaction (.error e) => some e
  | .fundTransaction _ _ (some e) => some e
  | .addMinerFee _ _ (some e) => some e
  | .addFileContract _ _ (some e) => some e
  | .signTransaction _ _ (.error e) => some e
  | _ => none

/-- The calls of the wallet. -/
def Event.isWallet : Event → Bool
  | .registerTransaction _ => true
  | .fundTransaction _ _ _ => true
  | .addMinerFee _ _ _ => true
  | .addFileContract _ _ _ => true
  | .signTransaction _ _ _ => true
  | _ => false

/-- The steps of a negotiation on a connection to a host. -/
def Event.isNet : Event → Bool
  | .call _ _ => true
  | .writeObject _ _ => true
  | .readObject _ _ => true
  | .connWrite _ _ _ => true
  | _ => false

/-- The calls of the host directory. -/
def Event.isDir : Event → Bool
  | .randomHost _ => true
  | .flagHost _ _ => true
  | _ => false

/-- The calls of the host directory among the events, in order. -/
def dirEvents (evs : List Event) : List Event := evs.filter Event.isDir

/-- The identifiers passed to `FlagHost`, in order. -/
def flaggedIDs : List Event → List Nat
  | [] => []
  | .flagHost id _ :: rest => id :: flaggedIDs rest
  | _ :: rest => flaggedIDs rest

/-- The hosts a negotiation was started with, in order. -/
def calledHosts : List Event → List HostEntry
  | [] => []
  | .call host _ :: rest => host :: calledHosts rest
  | _ :: rest => calledHosts rest

/-- The events after the last negotiation started with `host`. -/
def sinceCall (host : HostEntry) : List Event → List Event
  | [] => []
  | ev :: rest =>
    if (calledHosts rest).contains host then sinceCall host rest
    else if ev = .call host none then rest
    else sinceCall host rest

/-! ## Further concrete worlds -/

/-- A wallet that cannot fund more than 25000. -/
def poorEnv : Env World :=
  { simEnv netAccept with
    fundTransaction := fun _ amount s =>
      if 25000 < amount then (some "insufficient funds", s) else (none, s) }

/-- A wallet that refuses to sign. -/
def lockedEnv : Env World :=
  { simEnv netReject with
    signTransaction := fun _ _ s => (.error "wallet locked", s) }

/-- A host whose price is 10^16 per byte and block. -/
def richHost : HostEntry := { hostA with Price := 10 ^ 16 }

/-- A world whose chain height is 21 below the end of a `bits`-bit range. -/
def lateWorld (bits : Nat) : World := ⟨[hostA], 2 ^ bits - 21, ""⟩

/-- A request for `n` pieces of the file "f" under the name "nick". -/
def rentRequest (n : Int) : RentFileParameters := ⟨"f", "nick", n⟩

/-- The empty table. -/
def noFiles : Renter := ⟨fun _ => none⟩

/-- A table with an entry for "nick". -/
def oneFile : Renter := ⟨fun k => if k = "nick" then some ⟨[]⟩ else none⟩


/-! ## A finite host directory -/

/-- An environment whose host directory holds the finitely many hosts
`active s` in the world `s`: `RandomHost` answers only hosts of that set (so
it answers an error once the set is empty), `FlagHost` succeeds and removes
the host, no call brings a host back, and the wallet calls succeed. -/
structure FiniteDirectory {σ : Type} (env : Env σ) (active : σ → Finset Nat) : Prop where
  randomHost_active : ∀ s h, (env.randomHost s).1 = .ok h → h.ID ∈ active s
  randomHost_mono : ∀ s, active (env.randomHost s).2 ⊆ active s
  flagHost_ok : ∀ id s, (env.flagHost id s).1 = none
  flagHost_removes : ∀ id s, active (env.flagHost id s).2 ⊆ (active s).erase id
  register_ok : ∀ s, ∃ id, (env.registerTransaction s).1 = .ok id
  register_mono : ∀ s, active (env.registerTransaction s).2 ⊆ active s
  fund_ok : ∀ id amount s, (env.fundTransaction id amount s).1 = none
  fund_mono : ∀ id amount s, active (env.fundTransaction id amount s).2 ⊆ active s
  fee_ok : ∀ id fee s, (env.addMinerFee id fee s).1 = none
  fee_mono : ∀ id fee s, active (env.addMinerFee id fee s).2 ⊆ active s
  contract_ok : ∀ id fc s, (env.addFileContract id fc s).1 = none
  contract_mono : ∀ id fc s, active (env.addFileContract id fc s).2 ⊆ active s
  sign_ok : ∀ id whole s, ∃ txn, (env.signTransaction id whole s).1 = .ok txn
  sign_mono : ∀ id whole s, active (env.signTransaction id whole s).2 ⊆ active s
  dial_mono : ∀ addr s, active (env.dial addr s).2 ⊆ active s
  writeObject_mono : ∀ txn s, active (env.writeObject txn s).2 ⊆ active s
  readObject_mono : ∀ maxLen s, active (env.readObject maxLen s).2 ⊆ active s
  connWrite_mono : ∀ data s, active (env.connWrite data s).2 ⊆ active s

/-- The hosts of the concrete world, by identifier. -/
def activeHosts (s : World) : Finset Nat := (s.hosts.map (fun h => h.ID)).toFinset

variable {σ : Type}

/-! ## Lemmas on the events -/

theorem isDir_of_isWallet (ev : Event) (h : ev.isWallet = true) : ev.isDir = false := by
  cases ev <;> simp_all [Event.isWallet, Event.isDir]

theorem isDir_of_isNet (ev : Event) (h : ev.isNet = true) : ev.isDir = false := by
  cases ev <;> simp_all [Event.isNet, Event.isDir]

theorem isNet_of_isWallet (ev : Event) (h : ev.isWallet = true) : ev.isNet = false := by
  cases ev <;> simp_all [Event.isWallet, Event.isNet]

theorem walletError_of_isNet (ev : Event) (h : ev.isNet = true) : ev.walletError = none := by
  cases ev <;> simp_all [Event.isNet, Event.walletError]

theorem dirEvents_append (a b : List Event) : dirEvents (a ++ b) = dirEvents a ++ dirEvents b := by
  simp [dirEvents]

theorem flaggedIDs_append (a b : List Event) :
    flaggedIDs (a ++ b) = flaggedIDs a ++ flaggedIDs b := by
  induction a with
  | nil => rfl
  | cons ev rest ih => cases ev <;> simp [flaggedIDs, ih]

theorem calledHosts_append (a b : List Event) :
    calledHosts (a ++ b) = calledHosts a ++ calledHosts b := by
  induction a with
  | nil => rfl
  | cons ev rest ih => cases ev <;> simp [calledHosts, ih]

theorem payloadBytes_append (a b : List Event) :
    payloadBytes (a ++ b) = payloadBytes a ++ payloadBytes b := by
  induction a with
  | nil => rfl
  | cons ev rest ih => cases ev <;> simp [payloadBytes, ih]

theorem dirEvents_nil_of (l : List Event) (h : ∀ ev ∈ l, ev.isDir = false) : dirEvents l = [] := by
  simp only [dirEvents, List.filter_eq_nil_iff]
  intro ev hev
  simp [h ev hev]

theorem flaggedIDs_nil_of (l : List Event) (h : ∀ ev ∈ l, ev.isDir = false) :
    flaggedIDs l = [] := by
  induction l with
  | nil => rfl
  | cons ev rest ih =>
    have h1 := h ev (List.mem_cons_self _ _)
    have h2 := ih (fun ev2 h2 => h ev2 (List.mem_cons_of_mem _ h2))
    cases ev <;> simp_all [flaggedIDs, Event.isDir]

theorem calledHosts_nil_of (l : List Event) (h : ∀ ev ∈ l, ev.isNet = false) :
    calledHosts l = [] := by
  induction l with
  | nil => rfl
  | cons ev rest ih =>
    have h1 := h ev (List.mem_cons_self _ _)
    have h2 := ih (fun ev2 h2 => h ev2 (List.mem_cons_of_mem _ h2))
    cases ev <;> simp_all [calledHosts, Event.isNet]

theorem payloadBytes_nil_of (l : List Event) (h : ∀ ev ∈ l, ev.isNet = false) :
    payloadBytes l = [] := by
  induction l with
  | nil => rfl
  | cons ev rest ih =>
    have h1 := h ev (List.mem_cons_self _ _)
    have h2 := ih (fun ev2 h2 => h ev2 (List.mem_cons_of_mem _ h2))
    cases ev <;> simp_all [payloadBytes, Event.isNet]

theorem calledHosts_writes (l : List Event) (h : ∀ ev ∈ l, ∃ d n e, ev = Event.connWrite d n e) :
    calledHosts l = [] := by
  induction l with
  | nil => rfl
  | cons ev rest ih =>
    obtain ⟨d, n, e, rfl⟩ := h ev (List.mem_cons_self _ _)
    simp only [calledHosts]
    exact ih (fun ev2 h2 => h ev2 (List.mem_cons_of_mem _ h2))

theorem last_of_walletError (l : List Event) (e e2 : Err) (ev : Event)
    (h1 : l.getLast?.bind Event.walletError = some e)
    (h2 : ∀ x ∈ l.dropLast, x.walletError = none)
    (hev : ev ∈ l) (he : ev.walletError = some e2) :
    l.getLast? = some ev ∧ e2 = e := by
  cases hl : l.getLast? with
  | none => simp [hl] at h1
  | some a =>
    rw [hl] at h1
    simp only [Option.some_bind] at h1
    have hsplit := List.dropLast_append_getLast? a (by rw [hl]; exact Option.mem_some_iff.mpr rfl)
    rw [← hsplit] at hev
    simp only [List.mem_append, List.mem_singleton] at hev
    rcases hev with hev | rfl
    · rw [h2 ev hev] at he
      simp at he
    · rw [he] at h1
      simp only [Option.some.injEq] at h1
      exact ⟨rfl, h1⟩

/-! ## The start, the wallet calls and the negotiation -/

/-- The events of the start of `proposeContract` involve neither the host
directory, nor the wallet, nor a host. -/
theorem openAndHash_events (env : Env σ) (filename : String) (s : σ) :
    ∀ ev ∈ (openAndHash env filename s).2.2,
      ev.isDir = false ∧ ev.isNet = false ∧ ev.isWallet = false := by
  unfold openAndHash
  rcases env.openFile filename s with ⟨_ | content, s1⟩
  · simp [Event.isDir, Event.isNet, Event.isWallet]
  simp only []
  rcases env.statFile s1 with ⟨_ | e2, s2⟩
  swap
  · simp [Event.isDir, Event.isNet, Event.isWallet]
  simp only []
  rcases env.readerMerkleRoot content (env.calculateSegments (toUint64 content.length))
    with _ | merkle
  · simp [Event.isDir, Event.isNet, Event.isWallet]
  simp only []
  rcases env.seekFile s2 with ⟨_ | e3, s3⟩
  · simp [Event.isDir, Event.isNet, Event.isWallet]
  · simp [Event.isDir, Event.isNet, Event.isWallet]

theorem openAndHash_events_of_eq (env : Env σ) (filename : String) (s s0 : σ)
    (r : Except Err (List Byte × Hash)) (evs0 : List Event)
    (h : openAndHash env filename s = (r, s0, evs0)) :
    ∀ ev ∈ evs0, ev.isDir = false ∧ ev.isNet = false ∧ ev.isWallet = false := by
  have := openAndHash_events env filename s
  rw [h] at this
  exact this

theorem fundAndSign_cases (env : Env σ) (W : Widths) (host : HostEntry) (fc : FileContract)
    (duration : Nat) (s : σ) :
    (∀ ev ∈ (fundAndSign env W host fc duration s).2.2, ev.isWallet = true)
      ∧ (∀ txn, (fundAndSign env W host fc duration s).1 = .ok txn →
          ∀ ev ∈ (fundAndSign env W host fc duration s).2.2, ev.walletError = none)
      ∧ (∀ e, (fundAndSign env W host fc duration s).1 = .error e →
          (fundAndSign env W host fc duration s).2.2.getLast?.bind Event.walletError = some e
          ∧ ∀ ev ∈ (fundAndSign env W host fc duration s).2.2.dropLast,
              ev.walletError = none) := by
  unfold fundAndSign
  rcases env.registerTransaction s with ⟨_ | id, s1⟩
  · simp [Event.isWallet, Event.walletError]
  simp only []
  rcases env.fundTransaction id (W.cadd (renterPortion W host fc duration) (minerFee W)) s1
    with ⟨_ | e2, s2⟩
  swap
  · simp [Event.isWallet, Event.walletError]
  simp only []
  rcases env.addMinerFee id (minerFee W) s2 with ⟨_ | e3, s3⟩
  swap
  · simp [Event.isWallet, Event.walletError]
  simp only []
  rcases env.addFileContract id fc s3 with ⟨_ | e4, s4⟩
  swap
  · simp [Event.isWallet, Event.walletError]
  simp only []
  rcases env.signTransaction id false s4 with ⟨_ | txn, s5⟩
  · simp [Event.isWallet, Event.walletError]
  · simp [Event.isWallet, Event.walletError]

theorem fundAndSign_events_of_eq (env : Env σ) (W : Widths) (host : HostEntry)
    (fc : FileContract) (duration : Nat) (s s2 : σ) (r : Except Err Transaction)
    (evs : List Event) (h : fundAndSign env W host fc duration s = (r, s2, evs)) :
    (∀ ev ∈ evs, ev.isWallet = true)
      ∧ (∀ txn, r = .ok txn → ∀ ev ∈ evs, ev.walletError = none)
      ∧ (∀ e, r = .error e → evs.getLast?.bind Event.walletError = some e
          ∧ ∀ ev ∈ evs.dropLast, ev.walletError = none) := by
  have := fundAndSign_cases env W host fc duration s
  rw [h] at this
  exact this

theorem copyLoop_events (env : Env σ) (fuel : Nat) : ∀ (limit written : Nat) (file : File)
    (s : σ), ∀ ev ∈ (copyLoop env fuel limit written file s).events,
      ∃ d n e, ev = .connWrite d n e := by
  induction fuel with
  | zero =>
    intro limit written file s ev h
    simp [copyLoop] at h
  | succ fuel ih =>
    intro limit written file s ev h
    rw [copyLoop] at h
    simp only [] at h
    split at h
    · simp at h
    · split at h
      · simp at h
        exact ⟨_, _, _, h⟩
      · simp only [List.mem_cons] at h
        rcases h with h | h
        · exact ⟨_, _, _, h⟩
        · exact ih _ _ _ _ ev h

theorem copyN_events (env : Env σ) (n : Nat) (file : File) (s : σ) :
    ∀ ev ∈ (copyN env n file s).events, ∃ d n e, ev = .connWrite d n e := by
  intro ev h
  unfold copyN at h
  simp only [] at h
  split at h
  · exact copyLoop_events env _ _ _ _ _ ev h
  · split at h
    · exact copyLoop_events env _ _ _ _ _ ev h
    · exact copyLoop_events env _ _ _ _ _ ev h

/-- The fuel of the copy loop does not matter once it exceeds the limit: the
loop of `io.Copy` ends by itself. -/
theorem copyLoop_fuel (env : Env σ) (f1 : Nat) : ∀ (f2 limit written : Nat) (file : File)
    (s : σ), limit < f1 → limit < f2 →
      copyLoop env f1 limit written file s = copyLoop env f2 limit written file s := by
  induction f1 with
  | zero =>
    intro f2 limit written file s h1 _
    omega
  | succ a ih =>
    intro f2 limit written file s h1 h2
    obtain ⟨b, rfl⟩ : ∃ b, f2 = b + 1 := ⟨f2 - 1, by omega⟩
    rw [copyLoop, copyLoop]
    simp only []
    split
    · rfl
    · rename_i hne
      have hlen : 0 < (List.take (min copyBufSize limit)
          (List.drop file.pos file.content)).length :=
        List.length_pos.mpr hne
      have hle : (List.take (min copyBufSize limit)
          (List.drop file.pos file.content)).length ≤ limit := by
        rw [List.length_take]
        omega
      split
      · rfl
      · rw [ih b _ _ _ _ (by omega) (by omega)]

/-- What a negotiation leaves in the events: it starts with the call of the
host, every event is a step on the connection, and payload is written only
after the acceptance marker was read. -/
theorem negotiateContract_events (env : Env σ) (host : HostEntry) (txn : Transaction)
    (size : Nat) (file : File) (s : σ) :
    (∀ ev ∈ (negotiateContract env host txn size file s).events, ev.isNet = true)
      ∧ calledHosts (negotiateContract env host txn size file s).events = [host]
      ∧ (payloadBytes (negotiateContract env host txn size file s).events ≠ [] →
          .readObject 128 (.ok env.acceptContractResponse)
            ∈ (negotiateContract env host txn size file s).events) := by
  unfold negotiateContract
  rcases env.dial host.IPAddress s with ⟨_ | e1, s1⟩
  swap
  · simp [Event.isNet, calledHosts, payloadBytes]
  simp only []
  rcases env.writeObject txn s1 with ⟨_ | e2, s2⟩
  swap
  · simp [Event.isNet, calledHosts, payloadBytes]
  simp only []
  rcases env.readObject 128 s2 with ⟨_ | response, s3⟩
  · simp [Event.isNet, calledHosts, payloadBytes]
  simp only []
  split
  · simp [Event.isNet, calledHosts, payloadBytes]
  · rename_i hacc
    simp only [ne_eq, not_not] at hacc
    subst hacc
    have hc := copyN_events env size file s3
    refine ⟨?_, ?_, ?_⟩
    · intro ev hev
      simp only [List.cons_append, List.nil_append, List.mem_cons] at hev
      rcases hev with h | h | h | h
      · simp [h, Event.isNet]
      · simp [h, Event.isNet]
      · simp [h, Event.isNet]
      · obtain ⟨d, n, e, rfl⟩ := hc ev h
        simp [Event.isNet]
    · show host :: calledHosts (copyN env size file s3).events = [host]
      rw [calledHosts_writes _ hc]
    · intro _
      simp

/-- A response other than the acceptance marker fails the negotiation with
the response as the error; nothing is read from the file or streamed. -/
theorem negotiateContract_rejected (env : Env σ) (host : HostEntry) (txn : Transaction)
    (size : Nat) (file : File) (s s1 s2 s3 : σ) (response : String)
    (hdial : env.dial host.IPAddress s = (none, s1))
    (hwrite : env.writeObject txn s1 = (none, s2))
    (hread : env.readObject 128 s2 = (.ok response, s3))
    (hrej : response ≠ env.acceptContractResponse) :
    (negotiateContract env host txn size file s).err = some response
      ∧ (negotiateContract env host txn size file s).file = file
      ∧ payloadBytes (negotiateContract env host txn size file s).events = [] := by
  unfold negotiateContract
  simp [hdial, hwrite, hread, hrej, payloadBytes]

/-! ## One pass of the loop -/

theorem attempt_randomHost_error (env : Env σ) (W : Widths) (merkle : Hash) (size duration : Nat)
    (file : File) (s s1 : σ) (e : Err) (h : env.randomHost s = (.error e, s1)) :
    attempt env W merkle size duration file s = ⟨.fatal e, file, s1, [.randomHost (.error e)]⟩ := by
  unfold attempt
  simp only [h]

theorem attempt_wallet_error (env : Env σ) (W : Widths) (merkle : Hash) (size duration : Nat)
    (file : File) (s s1 s2 : σ) (host : HostEntry) (e : Err) (evs : List Event)
    (h : env.randomHost s = (.ok host, s1))
    (hw : fundAndSign env W host (fileContractFor W host size merkle (env.height s1) duration)
      duration s1 = (.error e, s2, evs)) :
    attempt env W merkle size duration file s
      = ⟨.fatal e, file, s2, .randomHost (.ok host) :: evs⟩ := by
  unfold attempt
  simp only [h, hw]

theorem attempt_accepted (env : Env σ) (W : Widths) (merkle : Hash) (size duration : Nat)
    (file : File) (s s1 s2 : σ) (host : HostEntry) (txn : Transaction) (evs : List Event)
    (h : env.randomHost s = (.ok host, s1))
    (hw : fundAndSign env W host (fileContractFor W host size merkle (env.height s1) duration)
      duration s1 = (.ok txn, s2, evs))
    (hn : (negotiateContract env host txn size file s2).err = none) :
    attempt env W merkle size duration file s
      = ⟨.accepted host (fileContractFor W host size merkle (env.height s1) duration),
          (negotiateContract env host txn size file s2).file,
          (negotiateContract env host txn size file s2).world,
          .randomHost (.ok host) :: (evs ++ (negotiateContract env host txn size file s2).events)⟩ := by
  unfold attempt
  simp only [h, hw, hn]

theorem attempt_flag_error (env : Env σ) (W : Widths) (merkle : Hash) (size duration : Nat)
    (file : File) (s s1 s2 s3 : σ) (host : HostEntry) (txn : Transaction) (evs : List Event)
    (e e2 : Err)
    (h : env.randomHost s = (.ok host, s1))
    (hw : fundAndSign env W host (fileContractFor W host size merkle (env.height s1) duration)
      duration s1 = (.ok txn, s2, evs))
    (hn : (negotiateContract env host txn size file s2).err = some e)
    (hf : env.flagHost host.ID (negotiateContract env host txn size file s2).world
      = (some e2, s3)) :
    attempt env W merkle size duration file s
      = ⟨.fatal e2, (negotiateContract env host txn size file s2).file, s3,
          .randomHost (.ok host) :: (evs ++ (negotiateContract env host txn size file s2).events
            ++ [.println e, .flagHost host.ID (some e2)])⟩ := by
  unfold attempt
  simp only [h, hw, hn, hf]

theorem attempt_retry (env : Env σ) (W : Widths) (merkle : Hash) (size duration : Nat)
    (file : File) (s s1 s2 s3 : σ) (host : HostEntry) (txn : Transaction) (evs : List Event)
    (e : Err)
    (h : env.randomHost s = (.ok host, s1))
    (hw : fundAndSign env W host (fileContractFor W host size merkle (env.height s1) duration)
      duration s1 = (.ok txn, s2, evs))
    (hn : (negotiateContract env host txn size file s2).err = some e)
    (hf : env.flagHost host.ID (negotiateContract env host txn size file s2).world
      = (none, s3)) :
    attempt env W merkle size duration file s
      = ⟨.retry, (negotiateContract env host txn size file s2).file, s3,
          .randomHost (.ok host) :: (evs ++ (negotiateContract env host txn size file s2).events
            ++ [.println e, .flagHost host.ID none])⟩ := by
  unfold attempt
  simp only [h, hw, hn, hf]

/-- The five ways through the body of the loop. -/
theorem attempt_cases (env : Env σ) (W : Widths) (merkle : Hash) (size duration : Nat)
    (file : File) (s : σ) :
    (∃ e s1, env.randomHost s = (.error e, s1)
      ∧ attempt env W merkle size duration file s
          = ⟨.fatal e, file, s1, [.randomHost (.error e)]⟩)
    ∨ (∃ host s1 e s2 evs, env.randomHost s = (.ok host, s1)
      ∧ fundAndSign env W host (fileContractFor W host size merkle (env.height s1) duration)
          duration s1 = (.error e, s2, evs)
      ∧ attempt env W merkle size duration file s
          = ⟨.fatal e, file, s2, .randomHost (.ok host) :: evs⟩)
    ∨ (∃ host s1 txn s2 evs, env.randomHost s = (.ok host, s1)
      ∧ fundAndSign env W host (fileContractFor W host size merkle (env.height s1) duration)
          duration s1 = (.ok txn, s2, evs)
      ∧ (negotiateContract env host txn size file s2).err = none
      ∧ attempt env W merkle size duration file s
          = ⟨.accepted host (fileContractFor W host size merkle (env.height s1) duration),
              (negotiateContract env host txn size file s2).file,
              (negotiateContract env host txn size file s2).world,
              .randomHost (.ok host) ::
                (evs ++ (negotiateContract env host txn size file s2).events)⟩)
    ∨ (∃ host s1 txn s2 evs e e2 s3, env.randomHost s = (.ok host, s1)
      ∧ fundAndSign env W host (fileContractFor W host size merkle (env.height s1) duration)
          duration s1 = (.ok txn, s2, evs)
      ∧ (negotiateContract env host txn size file s2).err = some e
      ∧ env.flagHost host.ID (negotiateContract env host txn size file s2).world = (some e2, s3)
      ∧ attempt env W merkle size duration file s
          = ⟨.fatal e2, (negotiateContract env host txn size file s2).file, s3,
              .randomHost (.ok host) ::
                (evs ++ (negotiateContract env host txn size file s2).events
                  ++ [.println e, .flagHost host.ID (some e2)])⟩)
    ∨ (∃ host s1 txn s2 evs e s3, env.randomHost s = (.ok host, s1)
      ∧ fundAndSign env W host (fileContractFor W host size merkle (env.height s1) duration)
          duration s1 = (.ok txn, s2, evs)
      ∧ (negotiateContract env host txn size file s2).err = some e
      ∧ env.flagHost host.ID (negotiateContract env host txn size file s2).world = (none, s3)
      ∧ attempt env W merkle size duration file s
          = ⟨.retry, (negotiateContract env host txn size file s2).file, s3,
              .randomHost (.ok host) ::
                (evs ++ (negotiateContract env host txn size file s2).events
                  ++ [.println e, .flagHost host.ID none])⟩) := by
  rcases h1 : env.randomHost s with ⟨_ | host, s1⟩
  · exact Or.inl ⟨_, _, rfl, attempt_randomHost_error env W merkle size duration file s s1 _ h1⟩
  rcases h2 : fundAndSign env W host (fileContractFor W host size merkle (env.height s1) duration)
    duration s1 with ⟨_ | txn, s2, evs⟩
  · exact Or.inr (Or.inl ⟨_, _, _, _, _, rfl, h2,
      attempt_wallet_error env W merkle size duration file s s1 s2 host _ evs h1 h2⟩)
  cases h3 : (negotiateContract env host txn size file s2).err with
  | none =>
    exact Or.inr (Or.inr (Or.inl ⟨_, _, _, _, _, rfl, h2, h3,
      attempt_accepted env W merkle size duration file s s1 s2 host txn evs h1 h2 h3⟩))
  | some e =>
    rcases h4 : env.flagHost host.ID (negotiateContract env host txn size file s2).world
      with ⟨_ | e2, s3⟩
    · exact Or.inr (Or.inr (Or.inr (Or.inr ⟨_, _, _, _, _, _, _, rfl, h2, h3, h4,
        attempt_retry env W merkle size duration file s s1 s2 s3 host txn evs e h1 h2 h3 h4⟩)))
    · exact Or.inr (Or.inr (Or.inr (Or.inl ⟨_, _, _, _, _, _, _, _, rfl, h2, h3, h4,
        attempt_flag_error env W merkle size duration file s s1 s2 s3 host txn evs e e2
          h1 h2 h3 h4⟩)))

/-- A pass that ends in the next pass: a host was selected, the wallet calls
succeeded, one negotiation with that host failed, and that host was flagged. -/
theorem attempt_retry_facts (env : Env σ) (W : Widths) (merkle : Hash) (size duration : Nat)
    (file : File) (s : σ)
    (h : (attempt env W merkle size duration file s).result = .retry) :
    ∃ host, (env.randomHost s).1 = .ok host
      ∧ dirEvents (attempt env W merkle size duration file s).events
          = [.randomHost (.ok host), .flagHost host.ID none]
      ∧ flaggedIDs (attempt env W merkle size duration file s).events = [host.ID]
      ∧ calledHosts (attempt env W merkle size duration file s).events = [host]
      ∧ (payloadBytes (attempt env W merkle size duration file s).events ≠ [] →
          .readObject 128 (.ok env.acceptContractResponse)
            ∈ (attempt env W merkle size duration file s).events)
      ∧ ∀ ev ∈ (attempt env W merkle size duration file s).events, ev.walletError = none := by
  rcases attempt_cases env W merkle size duration file s with
    ⟨e, s1, _, heq⟩ | ⟨host, s1, e, s2, evs, _, _, heq⟩ | ⟨host, s1, txn, s2, evs, _, _, _, heq⟩
    | ⟨host, s1, txn, s2, evs, e, e2, s3, _, _, _, _, heq⟩
    | ⟨host, s1, txn, s2, evs, e, s3, h1, h2, h3, h4, heq⟩
  · rw [heq] at h; simp at h
  · rw [heq] at h; simp at h
  · rw [heq] at h; simp at h
  · rw [heq] at h; simp at h
  · rw [heq]
    obtain ⟨hw1, hw2, _⟩ := fundAndSign_events_of_eq env W host _ duration s1 s2 _ evs h2
    obtain ⟨hn1, hn2, hn3⟩ := negotiateContract_events env host txn size file s2
    have hwd : ∀ ev ∈ evs, ev.isDir = false := fun ev hev => isDir_of_isWallet ev (hw1 ev hev)
    have hwn : ∀ ev ∈ evs, ev.isNet = false := fun ev hev => isNet_of_isWallet ev (hw1 ev hev)
    have hnd : ∀ ev ∈ (negotiateContract env host txn size file s2).events, ev.isDir = false :=
      fun ev hev => isDir_of_isNet ev (hn1 ev hev)
    refine ⟨host, by rw [h1], ?_, ?_, ?_, ?_, ?_⟩
    · show dirEvents ([.randomHost (.ok host)] ++ (evs ++ _ ++ _)) = _
      rw [dirEvents_append, dirEvents_append, dirEvents_append, dirEvents_nil_of evs hwd,
        dirEvents_nil_of _ hnd]
      simp [dirEvents, Event.isDir]
    · show flaggedIDs ([.randomHost (.ok host)] ++ (evs ++ _ ++ _)) = _
      rw [flaggedIDs_append, flaggedIDs_append, flaggedIDs_append, flaggedIDs_nil_of evs hwd,
        flaggedIDs_nil_of _ hnd]
      simp [flaggedIDs]
    · show calledHosts ([.randomHost (.ok host)] ++ (evs ++ _ ++ _)) = _
      rw [calledHosts_append, calledHosts_append, calledHosts_append,
        calledHosts_nil_of evs hwn, hn2]
      simp [calledHosts]
    · show payloadBytes ([.randomHost (.ok host)] ++ (evs ++ _ ++ _)) ≠ [] → _
      rw [payloadBytes_append, payloadBytes_append, payloadBytes_append,
        payloadBytes_nil_of evs hwn]
      intro hp
      have : payloadBytes (negotiateContract env host txn size file s2).events ≠ [] := by
        intro hc
        apply hp
        simp [hc, payloadBytes]
      have := hn3 this
      simp [this]
    · intro ev hev
      simp only [List.mem_cons, List.mem_append, List.mem_singleton, List.not_mem_nil,
        or_false] at hev
      rcases hev with rfl | (hev | hev) | rfl | rfl
      · rfl
      · exact hw2 txn rfl ev hev
      · exact walletError_of_isNet ev (hn1 ev hev)
      · rfl
      · rfl

/-- A pass that ends with an accepted contract: the host is the one the
directory selected in this pass and the contract is the one built for it. -/
theorem attempt_accepted_facts (env : Env σ) (W : Widths) (merkle : Hash)
    (size duration : Nat) (file : File) (s : σ) (host : HostEntry) (fc : FileContract)
    (h : (attempt env W merkle size duration file s).result = .accepted host fc) :
    (env.randomHost s).1 = .ok host
      ∧ fc = fileContractFor W host size merkle (env.height (env.randomHost s).2) duration
      ∧ dirEvents (attempt env W merkle size duration file s).events = [.randomHost (.ok host)]
      ∧ flaggedIDs (attempt env W merkle size duration file s).events = []
      ∧ calledHosts (attempt env W merkle size duration file s).events = [host] := by
  rcases attempt_cases env W merkle size duration file s with
    ⟨e, s1, _, heq⟩ | ⟨host2, s1, e, s2, evs, _, _, heq⟩
    | ⟨host2, s1, txn, s2, evs, h1, h2, h3, heq⟩
    | ⟨host2, s1, txn, s2, evs, e, e2, s3, _, _, _, _, heq⟩
    | ⟨host2, s1, txn, s2, evs, e, s3, _, _, _, _, heq⟩
  · rw [heq] at h; simp at h
  · rw [heq] at h; simp at h
  · rw [heq] at h ⊢
    simp only [AttemptResult.accepted.injEq] at h
    obtain ⟨rfl, rfl⟩ := h
    obtain ⟨hw1, _, _⟩ := fundAndSign_events_of_eq env W host2 _ duration s1 s2 _ evs h2
    obtain ⟨hn1, hn2, _⟩ := negotiateContract_events env host2 txn size file s2
    have hwd : ∀ ev ∈ evs, ev.isDir = false := fun ev hev => isDir_of_isWallet ev (hw1 ev hev)
    have hwn : ∀ ev ∈ evs, ev.isNet = false := fun ev hev => isNet_of_isWallet ev (hw1 ev hev)
    have hnd : ∀ ev ∈ (negotiateContract env host2 txn size file s2).events, ev.isDir = false :=
      fun ev hev => isDir_of_isNet ev (hn1 ev hev)
    refine ⟨by rw [h1], by rw [h1], ?_, ?_, ?_⟩
    · show dirEvents ([.randomHost (.ok host2)] ++ (evs ++ _)) = _
      rw [dirEvents_append, dirEvents_append, dirEvents_nil_of evs hwd, dirEvents_nil_of _ hnd]
      simp [dirEvents, Event.isDir]
    · show flaggedIDs ([.randomHost (.ok host2)] ++ (evs ++ _)) = _
      rw [flaggedIDs_append, flaggedIDs_append, flaggedIDs_nil_of evs hwd,
        flaggedIDs_nil_of _ hnd]
      simp [flaggedIDs]
    · show calledHosts ([.randomHost (.ok host2)] ++ (evs ++ _)) = _
      rw [calledHosts_append, calledHosts_append, calledHosts_nil_of evs hwn, hn2]
      simp [calledHosts]
  · rw [heq] at h; simp at h
  · rw [heq] at h; simp at h

/-- A pass in which a wallet call fails: the pass returns that error, and
after the selection of the host it consists of wallet calls only, the failed
one last. -/
theorem attempt_wallet_facts (env : Env σ) (W : Widths) (merkle : Hash) (size duration : Nat)
    (file : File) (s : σ) (ev : Event) (e : Err)
    (hev : ev ∈ (attempt env W merkle size duration file s).events)
    (he : ev.walletError = some e) :
    (attempt env W merkle size duration file s).result = .fatal e
      ∧ ∃ host ws, (attempt env W merkle size duration file s).events
            = .randomHost (.ok host) :: ws
          ∧ (∀ w ∈ ws, w.isWallet = true) ∧ ws.getLast? = some ev := by
  rcases attempt_cases env W merkle size duration file s with
    ⟨e1, s1, _, heq⟩ | ⟨host, s1, e1, s2, evs, h1, h2, heq⟩
    | ⟨host, s1, txn, s2, evs, h1, h2, h3, heq⟩
    | ⟨host, s1, txn, s2, evs, e1, e2, s3, h1, h2, h3, h4, heq⟩
    | ⟨host, s1, txn, s2, evs, e1, s3, h1, h2, h3, h4, heq⟩
  · rw [heq] at hev
    simp only [List.mem_singleton] at hev
    subst hev
    simp [Event.walletError] at he
  · rw [heq] at hev ⊢
    obtain ⟨hw1, _, hw3⟩ := fundAndSign_events_of_eq env W host _ duration s1 s2 _ evs h2
    obtain ⟨hl1, hl2⟩ := hw3 e1 rfl
    simp only [List.mem_cons] at hev
    rcases hev with rfl | hev
    · simp [Event.walletError] at he
    · obtain ⟨hlast, rfl⟩ := last_of_walletError evs e1 e ev hl1 hl2 hev he
      exact ⟨rfl, host, evs, rfl, hw1, hlast⟩
  · exfalso
    rw [heq] at hev
    obtain ⟨_, hw2, _⟩ := fundAndSign_events_of_eq env W host _ duration s1 s2 _ evs h2
    obtain ⟨hn1, _, _⟩ := negotiateContract_events env host txn size file s2
    simp only [List.mem_cons, List.mem_append] at hev
    rcases hev with rfl | hev | hev
    · simp [Event.walletError] at he
    · rw [hw2 txn rfl ev hev] at he; simp at he
    · rw [walletError_of_isNet ev (hn1 ev hev)] at he; simp at he
  · exfalso
    rw [heq] at hev
    obtain ⟨_, hw2, _⟩ := fundAndSign_events_of_eq env W host _ duration s1 s2 _ evs h2
    obtain ⟨hn1, _, _⟩ := negotiateContract_events env host txn size file s2
    simp only [List.mem_cons, List.mem_append, List.mem_singleton, List.not_mem_nil,
      or_false] at hev
    rcases hev with rfl | (hev | hev) | rfl | rfl
    · simp [Event.walletError] at he
    · rw [hw2 txn rfl ev hev] at he; simp at he
    · rw [walletError_of_isNet ev (hn1 ev hev)] at he; simp at he
    · simp [Event.walletError] at he
    · simp [Event.walletError] at he
  · exfalso
    have := (attempt_retry_facts env W merkle size duration file s (by rw [heq])).choose_spec
    rw [this.2.2.2.2.2 ev hev] at he
    simp at he

/-! ## The loop -/

theorem proposeLoop_fatal (env : Env σ) (W : Widths) (merkle : Hash) (size duration fuel : Nat)
    (file : File) (s : σ) (e : Err)
    (h : (attempt env W merkle size duration file s).result = .fatal e) :
    proposeLoop env W merkle size duration (fuel + 1) file s
      = ⟨.failed e, (attempt env W merkle size duration file s).world,
          (attempt env W merkle size duration file s).events⟩ := by
  rw [proposeLoop]
  simp only [h]

theorem proposeLoop_accepted (env : Env σ) (W : Widths) (merkle : Hash)
    (size duration fuel : Nat) (file : File) (s : σ) (host : HostEntry) (fc : FileContract)
    (h : (attempt env W merkle size duration file s).result = .accepted host fc) :
    proposeLoop env W merkle size duration (fuel + 1) file s
      = ⟨.done ⟨host, fc⟩, (attempt env W merkle size duration file s).world,
          (attempt env W merkle size duration file s).events⟩ := by
  rw [proposeLoop]
  simp only [h]

theorem proposeLoop_retry (env : Env σ) (W : Widths) (merkle : Hash) (size duration fuel : Nat)
    (file : File) (s : σ)
    (h : (attempt env W merkle size duration file s).result = .retry) :
    proposeLoop env W merkle size duration (fuel + 1) file s
      = ⟨(proposeLoop env W merkle size duration fuel
            (attempt env W merkle size duration file s).file
            (attempt env W merkle size duration file s).world).outcome,
          (proposeLoop env W merkle size duration fuel
            (attempt env W merkle size duration file s).file
            (attempt env W merkle size duration file s).world).world,
          (attempt env W merkle size duration file s).events ++
            (proposeLoop env W merkle size duration fuel
              (attempt env W merkle size duration file s).file
              (attempt env W merkle size duration file s).world).events⟩ := by
  rw [proposeLoop]
  simp only [h]

theorem retries_succ (env : Env σ) (W : Widths) (merkle : Hash) (size duration k : Nat)
    (file fk : File) (s sk : σ) (atts : List (List Event))
    (h : retries env W merkle size duration (k + 1) file s = some (fk, sk, atts)) :
    (attempt env W merkle size duration file s).result = .retry
      ∧ ∃ rest, atts = (attempt env W merkle size duration file s).events :: rest
        ∧ retries env W merkle size duration k (attempt env W merkle size duration file s).file
            (attempt env W merkle size duration file s).world = some (fk, sk, rest) := by
  rw [retries] at h
  cases hr : (attempt env W merkle size duration file s).result with
  | fatal e => simp [hr] at h
  | accepted host fc => simp [hr] at h
  | retry =>
    simp only [hr] at h
    cases h2 : retries env W merkle size duration k
        (attempt env W merkle size duration file s).file
        (attempt env W merkle size duration file s).world with
    | none => simp [h2] at h
    | some v =>
      obtain ⟨f, w, evs⟩ := v
      simp only [h2, Option.some.injEq, Prod.mk.injEq] at h
      obtain ⟨rfl, rfl, rfl⟩ := h
      exact ⟨rfl, _, rfl, rfl⟩

/-- After `k` passes that each end in the next pass, the loop continues from
the state they lead to. -/
theorem proposeLoop_retries (env : Env σ) (W : Widths) (merkle : Hash) (size duration : Nat)
    (k : Nat) : ∀ (file fk : File) (s sk : σ) (atts : List (List Event)) (m : Nat),
      retries env W merkle size duration k file s = some (fk, sk, atts) →
      proposeLoop env W merkle size duration (k + m) file s
        = ⟨(proposeLoop env W merkle size duration m fk sk).outcome,
            (proposeLoop env W merkle size duration m fk sk).world,
            atts.flatten ++ (proposeLoop env W merkle size duration m fk sk).events⟩ := by
  induction k with
  | zero =>
    intro file fk s sk atts m h
    simp only [retries, Option.some.injEq, Prod.mk.injEq] at h
    obtain ⟨rfl, rfl, rfl⟩ := h
    simp
  | succ k ih =>
    intro file fk s sk atts m h
    obtain ⟨hr, rest, rfl, h2⟩ := retries_succ env W merkle size duration k file fk s sk atts h
    have : k + 1 + m = (k + m) + 1 := by omega
    rw [this, proposeLoop_retry env W merkle size duration (k + m) file s hr,
      ih _ fk _ sk rest m h2]
    simp

theorem proposeContract_of_open (env : Env σ) (W : Widths) (fuel : Nat) (filename : String)
    (duration : Nat) (s s0 : σ) (content : List Byte) (merkle : Hash) (evs0 : List Event)
    (h : openAndHash env filename s = (.ok (content, merkle), s0, evs0)) :
    proposeContract env W fuel filename duration s
      = ⟨(proposeLoop env W merkle content.length duration fuel ⟨content, 0⟩ s0).outcome,
          (proposeLoop env W merkle content.length duration fuel ⟨content, 0⟩ s0).world,
          evs0 ++ (proposeLoop env W merkle content.length duration fuel ⟨content, 0⟩ s0).events⟩ := by
  unfold proposeContract
  simp only [h]

/-- What `k` passes that each end in the next pass leave in the events. -/
theorem retries_facts (env : Env σ) (W : Widths) (merkle : Hash) (size duration : Nat)
    (k : Nat) : ∀ (file fk : File) (s sk : σ) (atts : List (List Event)),
      retries env W merkle size duration k file s = some (fk, sk, atts) →
      atts.length = k
        ∧ (∀ evs ∈ atts, payloadBytes evs ≠ [] →
            .readObject 128 (.ok env.acceptContractResponse) ∈ evs)
        ∧ ∃ hs : List HostEntry, hs.length = k
          ∧ calledHosts atts.flatten = hs
          ∧ flaggedIDs atts.flatten = hs.map (fun h => h.ID)
          ∧ dirEvents atts.flatten
              = (hs.map (fun h => [Event.randomHost (.ok h), Event.flagHost h.ID none])).flatten := by
  induction k with
  | zero =>
    intro file fk s sk atts h
    simp only [retries, Option.some.injEq, Prod.mk.injEq] at h
    obtain ⟨rfl, rfl, rfl⟩ := h
    exact ⟨rfl, by simp, [], rfl, rfl, rfl, rfl⟩
  | succ k ih =>
    intro file fk s sk atts h
    obtain ⟨hr, rest, rfl, h2⟩ := retries_succ env W merkle size duration k file fk s sk atts h
    obtain ⟨host, _, hd, hf, hc, hp, _⟩ := attempt_retry_facts env W merkle size duration file s hr
    obtain ⟨hlen, hpay, hs, hslen, hc2, hf2, hd2⟩ := ih _ fk _ sk rest h2
    refine ⟨by simp [hlen], ?_, host :: hs, by simp [hslen], ?_, ?_, ?_⟩
    · intro evs hevs
      simp only [List.mem_cons] at hevs
      rcases hevs with rfl | hevs
      · exact hp
      · exact hpay evs hevs
    · rw [List.flatten_cons, calledHosts_append, hc, hc2]
      rfl
    · rw [List.flatten_cons, flaggedIDs_append, hf, hf2]
      rfl
    · rw [List.flatten_cons, dirEvents_append, hd, hd2]
      rfl

/-! ## The loop against a finite directory -/

theorem fundAndSign_directory (env : Env σ) (active : σ → Finset Nat)
    (hdir : FiniteDirectory env active) (W : Widths) (host : HostEntry) (fc : FileContract)
    (duration : Nat) (s : σ) :
    (∃ txn, (fundAndSign env W host fc duration s).1 = .ok txn)
      ∧ active (fundAndSign env W host fc duration s).2.1 ⊆ active s := by
  unfold fundAndSign
  obtain ⟨id, h1⟩ := hdir.register_ok s
  have m1 := hdir.register_mono s
  rcases hr1 : env.registerTransaction s with ⟨r1, s1⟩
  rw [hr1] at h1 m1
  simp only at h1 m1
  subst h1
  simp only []
  have h2 := hdir.fund_ok id (W.cadd (renterPortion W host fc duration) (minerFee W)) s1
  have m2 := hdir.fund_mono id (W.cadd (renterPortion W host fc duration) (minerFee W)) s1
  rcases hr2 : env.fundTransaction id (W.cadd (renterPortion W host fc duration) (minerFee W)) s1
    with ⟨r2, s2⟩
  rw [hr2] at h2 m2
  simp only at h2 m2
  subst h2
  simp only []
  have h3 := hdir.fee_ok id (minerFee W) s2
  have m3 := hdir.fee_mono id (minerFee W) s2
  rcases hr3 : env.addMinerFee id (minerFee W) s2 with ⟨r3, s3⟩
  rw [hr3] at h3 m3
  simp only at h3 m3
  subst h3
  simp only []
  have h4 := hdir.contract_ok id fc s3
  have m4 := hdir.contract_mono id fc s3
  rcases hr4 : env.addFileContract id fc s3 with ⟨r4, s4⟩
  rw [hr4] at h4 m4
  simp only at h4 m4
  subst h4
  simp only []
  obtain ⟨txn, h5⟩ := hdir.sign_ok id false s4
  have m5 := hdir.sign_mono id false s4
  rcases hr5 : env.signTransaction id false s4 with ⟨r5, s5⟩
  rw [hr5] at h5 m5
  simp only at h5 m5
  subst h5
  simp only []
  exact ⟨⟨txn, rfl⟩, m5.trans (m4.trans (m3.trans (m2.trans m1)))⟩

theorem copyLoop_directory (env : Env σ) (active : σ → Finset Nat)
    (hdir : FiniteDirectory env active) (fuel : Nat) : ∀ (limit written : Nat) (file : File)
    (s : σ), active (copyLoop env fuel limit written file s).world ⊆ active s := by
  induction fuel with
  | zero =>
    intro limit written file s
    simp [copyLoop]
  | succ fuel ih =>
    intro limit written file s
    rw [copyLoop]
    simp only []
    split
    · exact Finset.Subset.refl _
    · split
      · exact hdir.connWrite_mono _ s
      · exact (ih _ _ _ _).trans (hdir.connWrite_mono _ s)

theorem copyN_directory (env : Env σ) (active : σ → Finset Nat)
    (hdir : FiniteDirectory env active) (n : Nat) (file : File) (s : σ) :
    active (copyN env n file s).world ⊆ active s := by
  unfold copyN
  simp only []
  split
  · exact copyLoop_directory env active hdir _ _ _ _ _
  · split
    · exact copyLoop_directory env active hdir _ _ _ _ _
    · exact copyLoop_directory env active hdir _ _ _ _ _

theorem negotiateContract_directory (env : Env σ) (active : σ → Finset Nat)
    (hdir : FiniteDirectory env active) (host : HostEntry) (txn : Transaction) (size : Nat)
    (file : File) (s : σ) :
    active (negotiateContract env host txn size file s).world ⊆ active s := by
  unfold negotiateContract
  have m1 := hdir.dial_mono host.IPAddress s
  rcases hr1 : env.dial host.IPAddress s with ⟨_ | e1, s1⟩
  all_goals rw [hr1] at m1; simp only [] at m1 ⊢
  swap
  · exact m1
  have m2 := hdir.writeObject_mono txn s1
  rcases hr2 : env.writeObject txn s1 with ⟨_ | e2, s2⟩
  all_goals rw [hr2] at m2; simp only [] at m2 ⊢
  swap
  · exact m2.trans m1
  have m3 := hdir.readObject_mono 128 s2
  rcases hr3 : env.readObject 128 s2 with ⟨_ | response, s3⟩
  all_goals rw [hr3] at m3; simp only [] at m3 ⊢
  · exact m3.trans (m2.trans m1)
  split
  · exact m3.trans (m2.trans m1)
  · exact (copyN_directory env active hdir size file s3).trans (m3.trans (m2.trans m1))

/-- One pass of the loop against a finite directory. -/
theorem attempt_directory (env : Env σ) (active : σ → Finset Nat)
    (hdir : FiniteDirectory env active) (W : Widths) (merkle : Hash) (size duration : Nat)
    (file : File) (s : σ) :
    (∃ e, (attempt env W merkle size duration file s).result = .fatal e
        ∧ (attempt env W merkle size duration file s).events = [.randomHost (.error e)])
      ∨ (∃ host fc, (attempt env W merkle size duration file s).result = .accepted host fc
        ∧ calledHosts (attempt env W merkle size duration file s).events = [host]
        ∧ host.ID ∈ active s)
      ∨ (∃ host, (attempt env W merkle size duration file s).result = .retry
        ∧ calledHosts (attempt env W merkle size duration file s).events = [host]
        ∧ host.ID ∈ active s
        ∧ active (attempt env W merkle size duration file s).world
            ⊆ (active s).erase host.ID) := by
  rcases attempt_cases env W merkle size duration file s with
    ⟨e1, s1, _, heq⟩ | ⟨host, s1, e1, s2, evs, h1, h2, heq⟩
    | ⟨host, s1, txn, s2, evs, h1, h2, h3, heq⟩
    | ⟨host, s1, txn, s2, evs, e1, e2, s3, h1, h2, h3, h4, heq⟩
    | ⟨host, s1, txn, s2, evs, e1, s3, h1, h2, h3, h4, heq⟩
  · exact Or.inl ⟨e1, by rw [heq], by rw [heq]⟩
  · exfalso
    obtain ⟨⟨txn, hok⟩, _⟩ := fundAndSign_directory env active hdir W host
      (fileContractFor W host size merkle (env.height s1) duration) duration s1
    rw [h2] at hok
    simp at hok
  · have hacc : (attempt env W merkle size duration file s).result
        = .accepted host (fileContractFor W host size merkle (env.height s1) duration) := by
      rw [heq]
    obtain ⟨hr, _, _, _, hc⟩ := attempt_accepted_facts env W merkle size duration file s _ _ hacc
    exact Or.inr (Or.inl ⟨host, _, hacc, hc, hdir.randomHost_active s host hr⟩)
  · exfalso
    have := hdir.flagHost_ok host.ID (negotiateContract env host txn size file s2).world
    rw [h4] at this
    simp at this
  · have hret : (attempt env W merkle size duration file s).result = .retry := by rw [heq]
    obtain ⟨host2, hr, _, _, hc, _, _⟩ :=
      attempt_retry_facts env W merkle size duration file s hret
    have hhost : host2 = host := by
      rw [h1] at hr
      simp only [Except.ok.injEq] at hr
      exact hr.symm
    subst hhost
    refine Or.inr (Or.inr ⟨host2, hret, hc, hdir.randomHost_active s host2 (by rw [h1]), ?_⟩)
    rw [heq]
    show active s3 ⊆ _
    have m1 : active s1 ⊆ active s := by
      have := hdir.randomHost_mono s
      rw [h1] at this
      exact this
    have m2 : active s2 ⊆ active s1 := by
      have := (fundAndSign_directory env active hdir W host2
        (fileContractFor W host2 size merkle (env.height s1) duration) duration s1).2
      rw [h2] at this
      exact this
    have m3 := negotiateContract_directory env active hdir host2 txn size file s2
    have m4 := hdir.flagHost_removes host2.ID (negotiateContract env host2 txn size file s2).world
    rw [h4] at m4
    exact m4.trans (Finset.erase_subset_erase _ (m3.trans (m2.trans m1)))

/-- The loop against a finite directory of at most `n` hosts ends within
`n + 1` passes, negotiates with at most `n` hosts, with none twice, and ends
with a piece or with the error of `RandomHost`. -/
theorem proposeLoop_directory (env : Env σ) (active : σ → Finset Nat)
    (hdir : FiniteDirectory env active) (W : Widths) (merkle : Hash) (size duration : Nat)
    (fuel : Nat) : ∀ (n : Nat) (file : File) (s : σ), (active s).card ≤ n → n < fuel →
      (proposeLoop env W merkle size duration fuel file s).outcome ≠ .outOfFuel
        ∧ (calledHosts (proposeLoop env W merkle size duration fuel file s).events).length ≤ n
        ∧ ((calledHosts (proposeLoop env W merkle size duration fuel file s).events).map
            (fun h => h.ID)).Nodup
        ∧ (∀ h ∈ calledHosts (proposeLoop env W merkle size duration fuel file s).events,
            h.ID ∈ active s)
        ∧ ((∃ p, (proposeLoop env W merkle size duration fuel file s).outcome = .done p)
          ∨ (∃ e, (proposeLoop env W merkle size duration fuel file s).outcome = .failed e
            ∧ (proposeLoop env W merkle size duration fuel file s).events.getLast?
                = some (.randomHost (.error e)))) := by
  induction fuel with
  | zero =>
    intro n file s _ hfuel
    omega
  | succ fuel ih =>
    intro n file s hn hfuel
    rcases attempt_directory env active hdir W merkle size duration file s with
      ⟨e, hres, hevs⟩ | ⟨host, fc, hres, hc, hmem⟩ | ⟨host, hres, hc, hmem, hsub⟩
    · rw [proposeLoop_fatal env W merkle size duration fuel file s e hres, hevs]
      refine ⟨by simp, by simp [calledHosts], by simp [calledHosts], by simp [calledHosts], ?_⟩
      exact Or.inr ⟨e, rfl, rfl⟩
    · rw [proposeLoop_accepted env W merkle size duration fuel file s host fc hres]
      have hpos : 0 < (active s).card := Finset.card_pos.mpr ⟨_, hmem⟩
      refine ⟨by simp, ?_, ?_, ?_, Or.inl ⟨_, rfl⟩⟩
      · show (calledHosts (attempt env W merkle size duration file s).events).length ≤ n
        rw [hc]
        simp
        omega
      · show ((calledHosts (attempt env W merkle size duration file s).events).map _).Nodup
        rw [hc]
        simp
      · show ∀ h ∈ calledHosts (attempt env W merkle size duration file s).events, _
        rw [hc]
        simp [hmem]
    · rw [proposeLoop_retry env W merkle size duration fuel file s hres]
      have hpos : 0 < (active s).card := Finset.card_pos.mpr ⟨_, hmem⟩
      have hcard : (active (attempt env W merkle size duration file s).world).card ≤ n - 1 := by
        have h1 := Finset.card_le_card hsub
        rw [Finset.card_erase_of_mem hmem] at h1
        omega
      obtain ⟨i1, i2, i3, i4, i5⟩ := ih (n - 1) (attempt env W merkle size duration file s).file
        (attempt env W merkle size duration file s).world hcard (by omega)
      refine ⟨i1, ?_, ?_, ?_, ?_⟩
      · show (calledHosts (_ ++ _)).length ≤ n
        rw [calledHosts_append, hc]
        simp
        omega
      · show ((calledHosts (_ ++ _)).map _).Nodup
        rw [calledHosts_append, hc]
        simp only [List.singleton_append, List.map_cons, List.nodup_cons]
        refine ⟨?_, i3⟩
        intro hin
        obtain ⟨h2, hh2, hid⟩ := List.mem_map.mp hin
        have := hsub (i4 h2 hh2)
        rw [hid] at this
        simp at this
      · show ∀ h ∈ calledHosts (_ ++ _), _
        rw [calledHosts_append, hc]
        intro h hh
        simp only [List.singleton_append, List.mem_cons] at hh
        rcases hh with rfl | hh
        · exact hmem
        · exact Finset.mem_of_mem_erase (hsub (i4 h hh))
      · rcases i5 with ⟨p, hp⟩ | ⟨e, he, hlast⟩
        · exact Or.inl ⟨p, hp⟩
        · refine Or.inr ⟨e, he, ?_⟩
          show List.getLast? (_ ++ _) = _
          rw [List.getLast?_append, hlast]
          simp

/-- The concrete environment is a finite directory. -/
theorem simEnv_directory (net : Net) : FiniteDirectory (simEnv net) activeHosts where
  randomHost_active := by
    intro s h hh
    simp only [simEnv] at hh
    cases hs : s.hosts with
    | nil => simp [hs] at hh
    | cons a rest =>
      simp only [hs, Except.ok.injEq] at hh
      subst hh
      simp [activeHosts, hs]
  randomHost_mono := by
    intro s
    simp only [simEnv]
    cases s.hosts <;> exact Finset.Subset.refl _
  flagHost_ok := fun _ _ => rfl
  flagHost_removes := by
    intro id s x hx
    simp only [simEnv, activeHosts, List.mem_toFinset, List.mem_map, List.mem_filter] at hx
    obtain ⟨h, ⟨hmem, hne⟩, rfl⟩ := hx
    simp only [Finset.mem_erase, activeHosts, List.mem_toFinset, List.mem_map]
    exact ⟨by simpa using hne, h, hmem, rfl⟩
  register_ok := fun _ => ⟨"tx", rfl⟩
  register_mono := fun _ => Finset.Subset.refl _
  fund_ok := fun _ _ _ => rfl
  fund_mono := fun _ _ _ => Finset.Subset.refl _
  fee_ok := fun _ _ _ => rfl
  fee_mono := fun _ _ _ => Finset.Subset.refl _
  contract_ok := fun _ _ _ => rfl
  contract_mono := fun _ _ _ => Finset.Subset.refl _
  sign_ok := fun _ _ _ => ⟨7, rfl⟩
  sign_mono := fun _ _ _ => Finset.Subset.refl _
  dial_mono := fun _ _ => Finset.Subset.refl _
  writeObject_mono := fun _ _ => Finset.Subset.refl _
  readObject_mono := fun _ _ => Finset.Subset.refl _
  connWrite_mono := by
    intro data s
    simp only [simEnv]
    cases net.capacity s.peer with
    | none => exact Finset.Subset.refl _
    | some c =>
      simp only []
      split <;> exact Finset.Subset.refl _

/-! ## The rental loop -/

theorem int_of_fits (W : Widths) (x : Int) (hb : 1 ≤ W.intBits) (h0 : 0 ≤ x)
    (h1 : x < 2 ^ (W.intBits - 1)) : W.int x = x := by
  unfold Widths.int
  have hpos : (0 : Int) < 2 ^ (W.intBits - 1) := by positivity
  have h2 : (2 : Int) ^ W.intBits = 2 * 2 ^ (W.intBits - 1) := by
    rw [← pow_succ']
    congr 1
    omega
  rw [Int.emod_eq_of_lt (by omega) (by omega)]
  omega

theorem rentDuration_of_fits (W : Widths) (i : Nat)
    (h1 : 2000 + 1000 * i < 2 ^ W.heightBits) (h2 : 2000 + 1000 * i < 2 ^ (W.intBits - 1)) :
    rentDuration W i = 2000 + 1000 * i := by
  unfold rentDuration
  have hb : 1 ≤ W.intBits := by
    by_contra hc
    have h0 : W.intBits = 0 := by omega
    rw [h0] at h2
    simp at h2
  have h2z : (2000 + 1000 * (i : Int)) < 2 ^ (W.intBits - 1) := by exact_mod_cast h2
  have h1z : (2000 + 1000 * (i : Int)) < 2 ^ W.heightBits := by exact_mod_cast h1
  rw [int_of_fits W (1000 * (i : Int)) hb (by omega) (by omega),
    int_of_fits W (2000 + 1000 * (i : Int)) hb (by omega) h2z]
  unfold Widths.heightOfInt
  rw [Int.emod_eq_of_lt (by omega) h1z]
  omega

/-- Wrapping into `int` does not change the value modulo a power of two that
is no wider than `int`. -/
theorem int_emod (W : Widths) (x : Int) (hle : W.heightBits ≤ W.intBits) :
    W.int x % 2 ^ W.heightBits = x % 2 ^ W.heightBits := by
  have hdvd : (2 : Int) ^ W.heightBits ∣ 2 ^ W.intBits := pow_dvd_pow 2 hle
  unfold Widths.int
  rw [Int.sub_emod, Int.emod_emod_of_dvd _ hdvd, ← Int.sub_emod]
  congr 1
  omega

/-- The duration of piece `i` is `2000+1000*i` when that number is in the
`BlockHeight` range and either `int` is at least as wide as `BlockHeight` or
the number is in the `int` range. -/
theorem rentDuration_exact (W : Widths) (i : Nat)
    (h1 : 2000 + 1000 * i < 2 ^ W.heightBits)
    (h2 : W.heightBits ≤ W.intBits ∨ 2000 + 1000 * i < 2 ^ (W.intBits - 1)) :
    rentDuration W i = 2000 + 1000 * i := by
  rcases h2 with hle | h2
  · unfold rentDuration Widths.heightOfInt
    have h1z : (2000 + 1000 * (i : Int)) < 2 ^ W.heightBits := by exact_mod_cast h1
    rw [int_emod W _ hle, Int.add_emod, int_emod W _ hle, ← Int.add_emod,
      Int.emod_eq_of_lt (by omega) h1z]
    omega
  · exact rentDuration_of_fits W i h1 h2

theorem rentPieces_step_failed {σ : Type} (env : Env σ) (W : Widths) (fuel : Nat)
    (filepath : String) (n i : Nat) (pieces : List FilePiece) (s : σ) (e : Err)
    (h : (proposeContract env W fuel filepath (rentDuration W i) s).outcome = .failed e) :
    rentPieces env W fuel filepath (n + 1) i pieces s
      = ⟨.failed e, (proposeContract env W fuel filepath (rentDuration W i) s).world,
          [⟨filepath, rentDuration W i, .failed e,
            (proposeContract env W fuel filepath (rentDuration W i) s).events⟩]⟩ := by
  unfold rentPieces
  simp only [h]

theorem rentPieces_step_outOfFuel {σ : Type} (env : Env σ) (W : Widths) (fuel : Nat)
    (filepath : String) (n i : Nat) (pieces : List FilePiece) (s : σ)
    (h : (proposeContract env W fuel filepath (rentDuration W i) s).outcome = .outOfFuel) :
    rentPieces env W fuel filepath (n + 1) i pieces s
      = ⟨.outOfFuel, (proposeContract env W fuel filepath (rentDuration W i) s).world,
          [⟨filepath, rentDuration W i, .outOfFuel,
            (proposeContract env W fuel filepath (rentDuration W i) s).events⟩]⟩ := by
  unfold rentPieces
  simp only [h]

theorem rentPieces_step_done {σ : Type} (env : Env σ) (W : Widths) (fuel : Nat)
    (filepath : String) (n i : Nat) (pieces : List FilePiece) (s : σ) (piece : FilePiece)
    (h : (proposeContract env W fuel filepath (rentDuration W i) s).outcome = .done piece) :
    rentPieces env W fuel filepath (n + 1) i pieces s
      = { rentPieces env W fuel filepath n (i + 1) (pieces ++ [piece])
            (proposeContract env W fuel filepath (rentDuration W i) s).world with
          calls := ⟨filepath, rentDuration W i, .done piece,
              (proposeContract env W fuel filepath (rentDuration W i) s).events⟩ ::
            (rentPieces env W fuel filepath n (i + 1) (pieces ++ [piece])
              (proposeContract env W fuel filepath (rentDuration W i) s).world).calls } := by
  conv_lhs => unfold rentPieces
  simp only [h]

theorem rentPieces_failed {σ : Type} (env : Env σ) (W : Widths) (fuel : Nat) (filepath : String)
    (remaining : Nat) : ∀ (i : Nat) (pieces : List FilePiece) (s : σ) (idx : Nat) (c : Call)
      (e : Err), (rentPieces env W fuel filepath remaining i pieces s).calls[idx]? = some c →
      c.outcome = .failed e →
      (rentPieces env W fuel filepath remaining i pieces s).outcome = .failed e
        ∧ (rentPieces env W fuel filepath remaining i pieces s).calls.length = idx + 1 := by
  induction remaining with
  | zero =>
    intro i pieces s idx c e h _
    simp [rentPieces] at h
  | succ n ih =>
    intro i pieces s idx c e h hc
    cases hr : (proposeContract env W fuel filepath (rentDuration W i) s).outcome with
    | failed e2 =>
      rw [rentPieces_step_failed env W fuel filepath n i pieces s e2 hr] at h ⊢
      cases idx with
      | zero =>
        simp at h
        subst h
        simp at hc
        simp [hc]
      | succ j => simp at h
    | outOfFuel =>
      rw [rentPieces_step_outOfFuel env W fuel filepath n i pieces s hr] at h
      cases idx with
      | zero =>
        simp at h
        subst h
        simp at hc
      | succ j => simp at h
    | done piece =>
      rw [rentPieces_step_done env W fuel filepath n i pieces s piece hr] at h ⊢
      cases idx with
      | zero =>
        simp at h
        subst h
        simp at hc
      | succ j =>
        simp at h
        have := ih (i + 1) (pieces ++ [piece])
          (proposeContract env W fuel filepath (rentDuration W i) s).world j c e h hc
        simpa using this

theorem rentPieces_done {σ : Type} (env : Env σ) (W : Widths) (fuel : Nat) (filepath : String)
    (remaining : Nat) : ∀ (i : Nat) (pieces : List FilePiece) (s : σ),
      (∀ c ∈ (rentPieces env W fuel filepath remaining i pieces s).calls, c.piece.isSome) →
      (rentPieces env W fuel filepath remaining i pieces s).outcome
          = .done (pieces ++ (rentPieces env W fuel filepath remaining i pieces s).calls.filterMap
              Call.piece)
        ∧ (rentPieces env W fuel filepath remaining i pieces s).calls.map
            (fun c => (c.filename, c.duration))
          = (List.range remaining).map (fun j => (filepath, rentDuration W (i + j)))
        ∧ ((rentPieces env W fuel filepath remaining i pieces s).calls.filterMap
            Call.piece).length = remaining := by
  induction remaining with
  | zero =>
    intro i pieces s _
    simp [rentPieces]
  | succ n ih =>
    intro i pieces s h
    cases hr : (proposeContract env W fuel filepath (rentDuration W i) s).outcome with
    | failed e2 =>
      rw [rentPieces_step_failed env W fuel filepath n i pieces s e2 hr] at h
      simp [Call.piece] at h
    | outOfFuel =>
      rw [rentPieces_step_outOfFuel env W fuel filepath n i pieces s hr] at h
      simp [Call.piece] at h
    | done piece =>
      rw [rentPieces_step_done env W fuel filepath n i pieces s piece hr] at h ⊢
      have h2 := ih (i + 1) (pieces ++ [piece])
          (proposeContract env W fuel filepath (rentDuration W i) s).world
          (fun c hc => h c (List.mem_cons_of_mem _ hc))
      obtain ⟨h3, h4, h5⟩ := h2
      refine ⟨?_, ?_, ?_⟩
      · simp only [h3]
        simp [Call.piece]
      · rw [List.range_succ_eq_map]
        simp only [List.map_cons, List.map_map, h4]
        simp [Function.comp_def, Nat.add_assoc, Nat.add_comm 1]
      · simp [Call.piece, h5]

/-- With host A alone, accepting, every call of `proposeContract` on the
concrete world returns a piece and leaves the directory as it was. -/
theorem proposeContract_accept (W : Widths) (duration : Nat) (s : World)
    (hs : s.hosts = [hostA]) :
    (∃ p, (proposeContract (simEnv netAccept) W 1 "f" duration s).outcome = .done p)
      ∧ (proposeContract (simEnv netAccept) W 1 "f" duration s).world.hosts = [hostA] := by
  simp [proposeContract, openAndHash, simEnv, netAccept, proposeLoop, attempt, hs, fundAndSign,
    negotiateContract, copyN, copyLoop, countWrite, tenBytes, copyBufSize]

theorem rentPieces_accept (W : Widths) (remaining : Nat) :
    ∀ (i : Nat) (pieces : List FilePiece) (s : World), s.hosts = [hostA] →
      ∀ c ∈ (rentPieces (simEnv netAccept) W 1 "f" remaining i pieces s).calls,
        c.piece.isSome := by
  induction remaining with
  | zero =>
    intro i pieces s _ c hc
    simp [rentPieces] at hc
  | succ n ih =>
    intro i pieces s hs c hc
    obtain ⟨⟨p, hp⟩, hw⟩ := proposeContract_accept W (rentDuration W i) s hs
    rw [rentPieces_step_done (simEnv netAccept) W 1 "f" n i pieces s p hp] at hc
    simp only [List.mem_cons] at hc
    rcases hc with rfl | hc
    · simp [Call.piece]
    · exact ih (i + 1) (pieces ++ [p]) _ hw c hc

/-- On the concrete world with host A alone, accepting, every call that
`RentFile` makes succeeds, and the durations of the calls are
`BlockHeight(2000+1000*i)`. -/
theorem rentFile_accept (W : Widths) (N : Nat) :
    (∀ c ∈ (RentFile (simEnv netAccept) W 1 (rentRequest N) noFiles
        (worldOf [hostA])).1.calls, c.piece.isSome)
      ∧ (RentFile (simEnv netAccept) W 1 (rentRequest N) noFiles
          (worldOf [hostA])).1.calls.map (fun c => c.duration)
          = (List.range N).map (rentDuration W) := by
  have hcalls : (RentFile (simEnv netAccept) W 1 (rentRequest N) noFiles
      (worldOf [hostA])).1.calls
      = (rentPieces (simEnv netAccept) W 1 "f" N 0 [] (worldOf [hostA])).calls := by
    unfold RentFile
    simp only [noFiles, rentRequest, Int.toNat_ofNat]
    cases (rentPieces (simEnv netAccept) W 1 "f" N 0 [] (worldOf [hostA])).outcome <;> rfl
  have hok := rentPieces_accept W N 0 [] (worldOf [hostA]) rfl
  obtain ⟨_, h2, _⟩ := rentPieces_done (simEnv netAccept) W 1 "f" N 0 [] (worldOf [hostA]) hok
  rw [hcalls]
  refine ⟨hok, ?_⟩
  have := congrArg (List.map Prod.snd) h2
  simpa [List.map_map, Function.comp_def] using this

theorem contractFund_mod (W : Widths) (host : HostEntry) (size duration : Nat)
    (hfit : duration + 20 < 2 ^ W.heightBits) :
    contractFund W host size duration
      = ((host.Price * (duration + 20) + host.Burn * duration) * size) % 2 ^ W.currencyBits := by
  unfold contractFund Widths.cmul Widths.cadd Widths.hadd Widths.currency Widths.height delay
  rw [Nat.mod_eq_of_lt hfit]
  simp [Nat.mul_mod, Nat.add_mod]

/-- Whatever the width of `consensus.Currency` (one bit at least), some fund
wraps around: price 2^bits - 1, duration 0, a one-byte file. -/
theorem contractFund_wraps (W : Widths) (hc : 1 ≤ W.currencyBits) (hh : 5 ≤ W.heightBits) :
    contractFund W ⟨0, "", 2 ^ W.currencyBits - 1, 0, 0, 0, 0⟩ 1 0
      ≠ ((2 ^ W.currencyBits - 1) * (0 + 20) + 0 * 0) * 1 := by
  have hpow : 2 ≤ 2 ^ W.currencyBits := by
    calc 2 = 2 ^ 1 := rfl
      _ ≤ 2 ^ W.currencyBits := Nat.pow_le_pow_right (by decide) hc
  have hfit : 0 + 20 < 2 ^ W.heightBits := by
    calc 0 + 20 < 2 ^ 5 := by decide
      _ ≤ 2 ^ W.heightBits := Nat.pow_le_pow_right (by decide) hh
  rw [contractFund_mod W _ 1 0 hfit]
  have hlt := Nat.mod_lt (((2 ^ W.currencyBits - 1) * (0 + 20) + 0 * 0) * 1)
    (show 0 < 2 ^ W.currencyBits by omega)
  simp only at hlt ⊢
  omega

/-- Whatever the width of `consensus.BlockHeight` (five bits at least), at
the chain height 21 below the end of the range and duration 1 the contract
starts at the last height of the range and ends at height 0. -/
theorem heights_wrap (W : Widths) (host : HostEntry) (size : Nat) (merkle : Hash)
    (hh : 5 ≤ W.heightBits) :
    (fileContractFor W host size merkle (2 ^ W.heightBits - 21) 1).Start
        = 2 ^ W.heightBits - 1
      ∧ (fileContractFor W host size merkle (2 ^ W.heightBits - 21) 1).End = 0 := by
  have hpow : 32 ≤ 2 ^ W.heightBits := by
    calc 32 = 2 ^ 5 := rfl
      _ ≤ 2 ^ W.heightBits := Nat.pow_le_pow_right (by decide) hh
  constructor
  · show (2 ^ W.heightBits - 21 + 20) % 2 ^ W.heightBits = _
    rw [Nat.mod_eq_of_lt (by omega)]
    omega
  · show ((2 ^ W.heightBits - 21 + 1) % 2 ^ W.heightBits + 20) % 2 ^ W.heightBits = 0
    rw [Nat.mod_eq_of_lt (show 2 ^ W.heightBits - 21 + 1 < 2 ^ W.heightBits by omega)]
    have : 2 ^ W.heightBits - 21 + 1 + 20 = 2 ^ W.heightBits := by omega
    rw [this]
    exact Nat.mod_self _

/-! ## Contract terms (C1, C2) -/

/-- C1 (as amended): the ContractFund of the contract that proposeContract builds
is (price*(duration+20) + burn*duration) * fileSize reduced modulo
2^currencyBits, the wrap-around of the Currency type, for every duration with
duration + 20 in the BlockHeight range; it is exactly that product whenever
the product is below 2^currencyBits. -/
theorem C1_funding (W : Widths) (host : HostEntry) (size : Nat) (merkle : Hash)
    (height duration : Nat) (hfit : duration + 20 < 2 ^ W.heightBits) :
    (fileContractFor W host size merkle height duration).ContractFund
        = ((host.Price * (duration + 20) + host.Burn * duration) * size) % 2 ^ W.currencyBits
      ∧ ((host.Price * (duration + 20) + host.Burn * duration) * size < 2 ^ W.currencyBits →
          (fileContractFor W host size merkle height duration).ContractFund
            = (host.Price * (duration + 20) + host.Burn * duration) * size) := by
  have h := contractFund_mod W host size duration hfit
  refine ⟨h, fun hlt => ?_⟩
  show contractFund W host size duration = _
  rw [h, Nat.mod_eq_of_lt hlt]

/-- The terms of C1 for a 10-byte file, price 1, no burn and duration 2000. -/
theorem C1_funding_witness :
    (fileContractFor widths64 hostA 10 45 100 2000).ContractFund
        = ((hostA.Price * (2000 + 20) + hostA.Burn * 2000) * 10) % 2 ^ widths64.currencyBits
      ∧ ((hostA.Price * (2000 + 20) + hostA.Burn * 2000) * 10 < 2 ^ widths64.currencyBits →
          (fileContractFor widths64 hostA 10 45 100 2000).ContractFund
            = (hostA.Price * (2000 + 20) + hostA.Burn * 2000) * 10) :=
  C1_funding widths64 hostA 10 45 100 2000 (by decide)

/-- C1 as stated fails: with 64-bit Currency, price 10^16, no burn, duration
2000 and a 10-byte file, proposeContract returns a contract whose fund is
17532559262904483840, not 10^16 * 2020 * 10. -/
theorem C1_counterexample :
    ∃ p, (proposeContract (simEnv netAccept) widths64 1 "f" 2000 (worldOf [richHost])).outcome
        = .done p
      ∧ p.Host.Price = 10 ^ 16 ∧ p.Host.Burn = 0 ∧ p.Contract.FileSize = 10
      ∧ p.Contract.ContractFund = 17532559262904483840
      ∧ p.Contract.ContractFund ≠ (p.Host.Price * (2000 + 20) + p.Host.Burn * 2000) * 10 :=
  ⟨⟨richHost, fileContractFor widths64 richHost 10 45 100 2000⟩, by decide⟩

/-- C2 (as amended): for every positive duration and every chain height h with
h + duration + 20 in the BlockHeight range, the contract that proposeContract
builds has Start = h + 20 and End = Start + duration, hence Start < End and
End - Start = duration. -/
theorem C2_heights (W : Widths) (host : HostEntry) (size : Nat) (merkle : Hash)
    (height duration : Nat) (hpos : 0 < duration)
    (hfit : height + duration + 20 < 2 ^ W.heightBits) :
    (fileContractFor W host size merkle height duration).Start = height + 20
      ∧ (fileContractFor W host size merkle height duration).End
          = (fileContractFor W host size merkle height duration).Start + duration
      ∧ (fileContractFor W host size merkle height duration).Start
          < (fileContractFor W host size merkle height duration).End
      ∧ (fileContractFor W host size merkle height duration).End
          - (fileContractFor W host size merkle height duration).Start = duration := by
  have h1 : (fileContractFor W host size merkle height duration).Start = height + 20 := by
    show (height + 20) % 2 ^ W.heightBits = height + 20
    exact Nat.mod_eq_of_lt (by omega)
  have h2 : (fileContractFor W host size merkle height duration).End
      = height + duration + 20 := by
    show ((height + duration) % 2 ^ W.heightBits + 20) % 2 ^ W.heightBits = _
    rw [Nat.mod_eq_of_lt (show height + duration < 2 ^ W.heightBits by omega),
      Nat.mod_eq_of_lt hfit]
  rw [h1, h2]
  omega

/-- The heights of C2 at chain height 100 and duration 2000. -/
theorem C2_witness :
    (fileContractFor widths64 hostA 10 45 100 2000).Start = 120
      ∧ (fileContractFor widths64 hostA 10 45 100 2000).End = 2120 :=
  have h := C2_heights widths64 hostA 10 45 100 2000 (by decide) (by decide)
  ⟨h.1, h.2.1⟩

/-- C2 as stated fails: at a chain height 21 below the end of the BlockHeight
range (64 or 32 bits) and duration 1, proposeContract returns a contract with
Start = 2^bits - 1 and End = 0, so Start < End does not hold. -/
theorem C2_counterexample :
    (∃ p, (proposeContract (simEnv netAccept) widths64 1 "f" 1 (lateWorld 64)).outcome = .done p
      ∧ p.Contract.Start = 2 ^ 64 - 1 ∧ p.Contract.End = 0
      ∧ ¬ p.Contract.Start < p.Contract.End)
    ∧ (∃ p, (proposeContract (simEnv netAccept) widths32 1 "f" 1 (lateWorld 32)).outcome = .done p
      ∧ p.Contract.Start = 2 ^ 32 - 1 ∧ p.Contract.End = 0
      ∧ ¬ p.Contract.Start < p.Contract.End) :=
  ⟨⟨⟨hostA, fileContractFor widths64 hostA 10 45 (2 ^ 64 - 21) 1⟩, by decide⟩,
   ⟨⟨hostA, fileContractFor widths32 hostA 10 45 (2 ^ 32 - 21) 1⟩, by decide⟩⟩

/-! ## `RentFile` (C3, C4, C5) -/

/-- C3 (as amended): for a request of N pieces under a name that is not in the
table, if every call of proposeContract succeeds, then RentFile returns nil,
makes exactly N calls of proposeContract, the i-th for the requested file with
duration BlockHeight(2000+1000*i) (the sum computed in int, then converted),
and stores under the name the N returned pieces in call order, leaving every
other name as it was.  The duration of call i is the number 2000+1000*i
whenever that number is in the BlockHeight range and either int is at least as
wide as BlockHeight or the number is in the int range. -/
theorem C3_rentFile_pieces {σ : Type} (env : Env σ) (W : Widths) (fuel : Nat)
    (rfp : RentFileParameters) (r : Renter) (s : σ) (N : Nat)
    (hN : rfp.TotalPieces = (N : Int))
    (hfresh : r.files rfp.Nickname = none)
    (hok : ∀ c ∈ (RentFile env W fuel rfp r s).1.calls, c.piece.isSome) :
    (RentFile env W fuel rfp r s).1.outcome = .done ()
      ∧ (RentFile env W fuel rfp r s).1.calls.length = N
      ∧ (RentFile env W fuel rfp r s).1.calls.map (fun c => (c.filename, c.duration))
          = (List.range N).map (fun i => (rfp.Filepath, rentDuration W i))
      ∧ (∀ i < N, 2000 + 1000 * i < 2 ^ W.heightBits →
          (W.heightBits ≤ W.intBits ∨ 2000 + 1000 * i < 2 ^ (W.intBits - 1)) →
          ((RentFile env W fuel rfp r s).1.calls.map
            (fun c => (c.filename, c.duration)))[i]? = some (rfp.Filepath, 2000 + 1000 * i))
      ∧ ((RentFile env W fuel rfp r s).1.calls.filterMap Call.piece).length = N
      ∧ (RentFile env W fuel rfp r s).2.files rfp.Nickname
          = some ⟨(RentFile env W fuel rfp r s).1.calls.filterMap Call.piece⟩
      ∧ ∀ k, k ≠ rfp.Nickname → (RentFile env W fuel rfp r s).2.files k = r.files k := by
  have hcalls : (RentFile env W fuel rfp r s).1.calls
      = (rentPieces env W fuel rfp.Filepath N 0 [] s).calls := by
    unfold RentFile
    simp only [hfresh, hN, Int.toNat_ofNat]
    cases (rentPieces env W fuel rfp.Filepath N 0 [] s).outcome <;> rfl
  rw [hcalls] at hok
  obtain ⟨h1, h2, h3⟩ := rentPieces_done env W fuel rfp.Filepath N 0 [] s hok
  have hrun : RentFile env W fuel rfp r s
      = (⟨.done (), (rentPieces env W fuel rfp.Filepath N 0 [] s).world,
          (rentPieces env W fuel rfp.Filepath N 0 [] s).calls⟩,
        ⟨fun k => if k = rfp.Nickname then
            some ⟨(rentPieces env W fuel rfp.Filepath N 0 [] s).calls.filterMap Call.piece⟩
          else r.files k⟩) := by
    unfold RentFile
    simp only [hfresh, hN, Int.toNat_ofNat, h1, List.nil_append]
  have h2z : (rentPieces env W fuel rfp.Filepath N 0 [] s).calls.map
      (fun c => (c.filename, c.duration))
      = (List.range N).map (fun i => (rfp.Filepath, rentDuration W i)) := by
    rw [h2]
    apply List.map_congr_left
    intro i _
    simp
  have hlen : (rentPieces env W fuel rfp.Filepath N 0 [] s).calls.length = N := by
    have := congrArg List.length h2z
    simpa using this
  rw [hrun]
  refine ⟨rfl, hlen, h2z, ?_, h3, by simp, fun k hk => by simp [hk]⟩
  intro i hi hh hint
  show ((rentPieces env W fuel rfp.Filepath N 0 [] s).calls.map
    (fun c => (c.filename, c.duration)))[i]? = _
  rw [h2z, List.getElem?_map, List.getElem?_range hi, Option.map_some',
    rentDuration_exact W i hh hint]

/-- The calls of C3 for a request of three pieces. -/
theorem C3_witness :
    (RentFile (simEnv netAccept) widths64 1 (rentRequest 3) noFiles (worldOf [hostA])).1.outcome
        = .done ()
      ∧ (RentFile (simEnv netAccept) widths64 1 (rentRequest 3) noFiles
          (worldOf [hostA])).1.calls.map (fun c => (c.filename, c.duration))
          = [("f", 2000), ("f", 3000), ("f", 4000)] :=
  have h := C3_rentFile_pieces (simEnv netAccept) widths64 1 (rentRequest 3) noFiles
    (worldOf [hostA]) 3 rfl rfl (rentFile_accept widths64 3).1
  ⟨h.1, h.2.2.1.trans (by decide)⟩

/-- C3 as stated fails where `int` has 32 bits (and BlockHeight 64): for a
request of 2147483 pieces in a world where every call of proposeContract
succeeds, the durations of the calls are not 2000+1000*i: for the last piece,
i = 2147482, the sum 2147484000 is beyond the largest int and the duration
passed is 18446744071562068320. -/
theorem C3_counterexample :
    (∀ c ∈ (RentFile (simEnv netAccept) widthsInt32 1 (rentRequest (2147483 : Nat)) noFiles
        (worldOf [hostA])).1.calls, c.piece.isSome)
      ∧ ((RentFile (simEnv netAccept) widthsInt32 1 (rentRequest (2147483 : Nat)) noFiles
          (worldOf [hostA])).1.calls.map (fun c => c.duration))[2147482]?
          = some 18446744071562068320
      ∧ (RentFile (simEnv netAccept) widthsInt32 1 (rentRequest (2147483 : Nat)) noFiles
          (worldOf [hostA])).1.calls.map (fun c => c.duration)
          ≠ (List.range 2147483).map (fun i => 2000 + 1000 * i) := by
  have h := (rentFile_accept widthsInt32 2147483).2
  refine ⟨(rentFile_accept widthsInt32 2147483).1, ?_, ?_⟩
  · rw [h, List.getElem?_map, List.getElem?_range (by decide), Option.map_some']
    decide
  · rw [h]
    intro heq
    have := (List.map_inj_left.mp heq) 2147482 (List.mem_range.mpr (by decide))
    revert this
    decide

/-- C4: for a request whose nickname has an entry in the table, RentFile returns
the error "file of that nickname already exists", leaves the table as it
was, makes no call of proposeContract, and leaves the world (host directory,
wallet, hosts) untouched. -/
theorem C4_duplicate_name {σ : Type} (env : Env σ) (W : Widths) (fuel : Nat)
    (rfp : RentFileParameters) (r : Renter) (s : σ) (entry : FileEntry)
    (hdup : r.files rfp.Nickname = some entry) :
    (RentFile env W fuel rfp r s).1.outcome = .failed errNicknameExists
      ∧ (RentFile env W fuel rfp r s).2.files = r.files
      ∧ (RentFile env W fuel rfp r s).1.calls = []
      ∧ (RentFile env W fuel rfp r s).1.world = s := by
  unfold RentFile
  simp [hdup]

/-- The refusal of C4 for a table that holds the requested name. -/
theorem C4_witness :
    (RentFile (simEnv netAccept) widths64 1 (rentRequest 3) oneFile (worldOf [hostA])).1.outcome
        = .failed errNicknameExists
      ∧ (RentFile (simEnv netAccept) widths64 1 (rentRequest 3) oneFile
          (worldOf [hostA])).1.calls = [] :=
  have h := C4_duplicate_name (simEnv netAccept) widths64 1 (rentRequest 3) oneFile
    (worldOf [hostA]) ⟨[]⟩ rfl
  ⟨h.1, h.2.2.1⟩

/-- C5: if the call of proposeContract for piece i fails with an error, RentFile
returns that error, that call is the last one it makes (i + 1 calls in all),
and the table is left as it was. -/
theorem C5_piece_failure {σ : Type} (env : Env σ) (W : Widths) (fuel : Nat)
    (rfp : RentFileParameters) (r : Renter) (s : σ) (i : Nat) (c : Call) (e : Err)
    (hcall : (RentFile env W fuel rfp r s).1.calls[i]? = some c)
    (hfail : c.outcome = .failed e) :
    (RentFile env W fuel rfp r s).1.outcome = .failed e
      ∧ (RentFile env W fuel rfp r s).1.calls.length = i + 1
      ∧ (RentFile env W fuel rfp r s).2.files = r.files := by
  cases hf : r.files rfp.Nickname with
  | some entry =>
    have hnil : (RentFile env W fuel rfp r s).1.calls = [] := by
      unfold RentFile
      simp [hf]
    rw [hnil] at hcall
    simp at hcall
  | none =>
    have hcalls : (RentFile env W fuel rfp r s).1.calls
        = (rentPieces env W fuel rfp.Filepath rfp.TotalPieces.toNat 0 [] s).calls := by
      unfold RentFile
      simp only [hf]
      cases (rentPieces env W fuel rfp.Filepath rfp.TotalPieces.toNat 0 [] s).outcome <;> rfl
    rw [hcalls] at hcall
    obtain ⟨h1, h2⟩ := rentPieces_failed env W fuel rfp.Filepath rfp.TotalPieces.toNat 0 [] s
      i c e hcall hfail
    unfold RentFile
    simp only [hf, h1]
    exact ⟨trivial, h2, trivial⟩

set_option maxRecDepth 100000 in
/-- The abort of C5 with a wallet that cannot fund the second of three pieces. -/
theorem C5_witness :
    (RentFile poorEnv widths64 1 (rentRequest 3) noFiles (worldOf [hostA])).1.outcome
        = .failed "insufficient funds"
      ∧ (RentFile poorEnv widths64 1 (rentRequest 3) noFiles (worldOf [hostA])).1.calls.length
          = 2 :=
  have h := C5_piece_failure poorEnv widths64 1 (rentRequest 3) noFiles (worldOf [hostA]) 1
    _ "insufficient funds" rfl rfl
  ⟨h.1, h.2.1⟩

set_option maxRecDepth 100000 in
/-- The first end-to-end scenario of the specification: a 10-byte file, one
piece, one host with price 1, no burn, window 5 and tolerance 1, at chain
height 100. -/
theorem scenario_single_host :
    ∃ p, (RentFile (simEnv netAccept) widths64 1 (rentRequest 1) noFiles
          (worldOf [hostA])).2.files "nick" = some ⟨[p]⟩
      ∧ p.Host = hostA
      ∧ p.Contract.Start = 120 ∧ p.Contract.End = 2120
      ∧ p.Contract.ContractFund = 20200
      ∧ p.Contract.ValidProofPayout = 50 ∧ p.Contract.MissedProofPayout = 0 :=
  ⟨⟨hostA, fileContractFor widths64 hostA 10 45 100 2000⟩, by decide⟩

/-! ## The retry loop (C6, C7, C8, C9, C10) -/

/-- C6: when the file was opened and hashed, the first k passes of the loop each
end with a failed negotiation and a successful FlagHost, and pass k+1 is
accepted, then with more than k passes of fuel proposeContract returns the
host that RandomHost selected in pass k+1 with the contract built for it in
that pass; negotiations were started with the k failed hosts and then that
host, FlagHost was called exactly k times, once for each failed host in order,
and in the calls of the directory each such FlagHost directly follows the
RandomHost that selected the host and precedes the next RandomHost. -/
theorem C6_retry_then_accept (env : Env σ) (W : Widths) (fuel : Nat) (filename : String)
    (duration : Nat) (s s0 sk : σ) (content : List Byte) (merkle : Hash) (evs0 : List Event)
    (k : Nat) (fk : File) (atts : List (List Event)) (host : HostEntry) (fc : FileContract)
    (hopen : openAndHash env filename s = (.ok (content, merkle), s0, evs0))
    (hfail : retries env W merkle content.length duration k ⟨content, 0⟩ s0
      = some (fk, sk, atts))
    (hacc : (attempt env W merkle content.length duration fk sk).result = .accepted host fc)
    (hfuel : k < fuel) :
    (proposeContract env W fuel filename duration s).outcome = .done ⟨host, fc⟩
      ∧ (env.randomHost sk).1 = .ok host
      ∧ fc = fileContractFor W host content.length merkle
          (env.height (env.randomHost sk).2) duration
      ∧ ∃ hs : List HostEntry, hs.length = k
        ∧ calledHosts (proposeContract env W fuel filename duration s).events = hs ++ [host]
        ∧ flaggedIDs (proposeContract env W fuel filename duration s).events
            = hs.map (fun h => h.ID)
        ∧ dirEvents (proposeContract env W fuel filename duration s).events
            = (hs.map (fun h => [Event.randomHost (.ok h), Event.flagHost h.ID none])).flatten
              ++ [.randomHost (.ok host)] := by
  obtain ⟨m, rfl⟩ : ∃ m, fuel = k + (m + 1) := ⟨fuel - k - 1, by omega⟩
  have h0 := openAndHash_events_of_eq env filename s s0 _ evs0 hopen
  obtain ⟨hr, hfc, hd, hf, hc⟩ :=
    attempt_accepted_facts env W merkle content.length duration fk sk host fc hacc
  obtain ⟨_, _, hs, hslen, hc2, hf2, hd2⟩ :=
    retries_facts env W merkle content.length duration k _ fk _ sk atts hfail
  rw [proposeContract_of_open env W _ filename duration s s0 content merkle evs0 hopen,
    proposeLoop_retries env W merkle content.length duration k _ fk _ sk atts (m + 1) hfail,
    proposeLoop_accepted env W merkle content.length duration m fk sk host fc hacc]
  refine ⟨rfl, hr, hfc, hs, hslen, ?_, ?_, ?_⟩
  · show calledHosts (evs0 ++ (atts.flatten ++ _)) = _
    rw [calledHosts_append, calledHosts_append, hc2, hc,
      calledHosts_nil_of evs0 (fun ev hev => (h0 ev hev).2.1)]
    rfl
  · show flaggedIDs (evs0 ++ (atts.flatten ++ _)) = _
    rw [flaggedIDs_append, flaggedIDs_append, hf2, hf,
      flaggedIDs_nil_of evs0 (fun ev hev => (h0 ev hev).1)]
    simp
  · show dirEvents (evs0 ++ (atts.flatten ++ _)) = _
    rw [dirEvents_append, dirEvents_append, hd2, hd,
      dirEvents_nil_of evs0 (fun ev hev => (h0 ev hev).1)]
    rfl

/-- The run of C6 in which host A answers "out of space" and host B accepts. -/
theorem C6_witness :
    (proposeContract (simEnv netReject) widths64 2 "f" 2000 (worldOf [hostA, hostB])).outcome
      = .done ⟨hostB, fileContractFor widths64 hostB 10 45 100 2000⟩ :=
  (C6_retry_then_accept (simEnv netReject) widths64 2 "f" 2000 (worldOf [hostA, hostB])
    _ _ _ _ _ 1 _ _ hostB _ rfl rfl rfl (by decide)).1

/-- C7 (as amended): if RandomHost returns an error after k passes that each
ended with a failed negotiation, proposeContract fails with that error, the
error is its last event, and the payload bytes streamed during the call are
those of the k earlier passes, each of which streamed payload only after
reading the acceptance marker from its host (so none on the first attempt). -/
theorem C7_randomHost_error (env : Env σ) (W : Widths) (fuel : Nat) (filename : String)
    (duration : Nat) (s s0 sk : σ) (content : List Byte) (merkle : Hash) (evs0 : List Event)
    (k : Nat) (fk : File) (atts : List (List Event)) (e : Err)
    (hopen : openAndHash env filename s = (.ok (content, merkle), s0, evs0))
    (hfail : retries env W merkle content.length duration k ⟨content, 0⟩ s0
      = some (fk, sk, atts))
    (herr : (env.randomHost sk).1 = .error e)
    (hfuel : k < fuel) :
    (proposeContract env W fuel filename duration s).outcome = .failed e
      ∧ (proposeContract env W fuel filename duration s).events
          = evs0 ++ (atts.flatten ++ [.randomHost (.error e)])
      ∧ atts.length = k
      ∧ payloadBytes (proposeContract env W fuel filename duration s).events
          = payloadBytes atts.flatten
      ∧ ∀ evs ∈ atts, payloadBytes evs ≠ [] →
          .readObject 128 (.ok env.acceptContractResponse) ∈ evs := by
  obtain ⟨m, rfl⟩ : ∃ m, fuel = k + (m + 1) := ⟨fuel - k - 1, by omega⟩
  have h0 := openAndHash_events_of_eq env filename s s0 _ evs0 hopen
  obtain ⟨hlen, hpay, _⟩ :=
    retries_facts env W merkle content.length duration k _ fk _ sk atts hfail
  have hatt := attempt_randomHost_error env W merkle content.length duration fk sk
    (env.randomHost sk).2 e (by rw [← herr])
  rw [proposeContract_of_open env W _ filename duration s s0 content merkle evs0 hopen,
    proposeLoop_retries env W merkle content.length duration k _ fk _ sk atts (m + 1) hfail,
    proposeLoop_fatal env W merkle content.length duration m fk sk e (by rw [hatt]), hatt]
  refine ⟨rfl, rfl, hlen, ?_, hpay⟩
  show payloadBytes (evs0 ++ (atts.flatten ++ _)) = _
  rw [payloadBytes_append, payloadBytes_append,
    payloadBytes_nil_of evs0 (fun ev hev => (h0 ev hev).2.1)]
  simp [payloadBytes]

/-- The failure of C7 when host A rejects and no host remains. -/
theorem C7_witness :
    (proposeContract (simEnv netReject) widths64 2 "f" 2000 (worldOf [hostA])).outcome
      = .failed "no hosts" :=
  (C7_randomHost_error (simEnv netReject) widths64 2 "f" 2000 (worldOf [hostA])
    _ _ _ _ _ 1 _ _ "no hosts" rfl rfl rfl (by decide)).1

/-- C7 as stated fails: host A accepts, its connection breaks after one payload
byte, A is flagged and RandomHost then returns an error; the call fails with
that error although a payload byte was streamed during the call. -/
theorem C7_counterexample :
    Event.randomHost (.error "no hosts")
        ∈ (proposeContract (simEnv netBreak) widths64 2 "f" 2000 (worldOf [hostA])).events
      ∧ (proposeContract (simEnv netBreak) widths64 2 "f" 2000 (worldOf [hostA])).outcome
          = .failed "no hosts"
      ∧ payloadBytes (proposeContract (simEnv netBreak) widths64 2 "f" 2000
          (worldOf [hostA])).events = [7]
      ∧ payloadBytes (proposeContract (simEnv netBreak) widths64 2 "f" 2000
          (worldOf [hostA])).events ≠ [] := by
  decide

/-- C8 fails on the code: host A accepts and its connection breaks after one
byte of the two-byte file; host B then answers the acceptance marker on a
connection that never breaks, yet no payload byte is written to it (the file
cursor was left at the end), and B is flagged. -/
theorem C8_cursor_not_rewound :
    .readObject 128 (.ok (simEnv netBreak).acceptContractResponse)
        ∈ sinceCall hostB (proposeContract (simEnv netBreak) widths64 3 "f" 2000
            (worldOf [hostA, hostB])).events
      ∧ payloadBytes (sinceCall hostB (proposeContract (simEnv netBreak) widths64 3 "f" 2000
          (worldOf [hostA, hostB])).events) = []
      ∧ netBreak.content = [7, 9]
      ∧ netBreak.capacity hostB.IPAddress = none
      ∧ Event.flagHost hostB.ID none
          ∈ (proposeContract (simEnv netBreak) widths64 3 "f" 2000
              (worldOf [hostA, hostB])).events
      ∧ (proposeContract (simEnv netBreak) widths64 3 "f" 2000
          (worldOf [hostA, hostB])).outcome = .failed "no hosts" := by
  decide

/-- After a rejection (host A answers "out of space") the next host is sent
the whole file: a failed attempt that did not reach the payload leaves the
cursor at the start. -/
theorem retry_after_rejection_streams_file :
    payloadBytes (sinceCall hostB (proposeContract (simEnv netReject) widths64 2 "f" 2000
      (worldOf [hostA, hostB])).events) = netReject.content := by
  decide

/-- C9: if in some pass of the loop (after k passes that each ended with a failed
negotiation) a wallet call returns an error, proposeContract returns that
error, and after the RandomHost that selected the host of that pass the events
are wallet calls only, the failed one last: no connection is opened, FlagHost
is not called and no further host is requested. -/
theorem C9_wallet_error (env : Env σ) (W : Widths) (fuel : Nat) (filename : String)
    (duration : Nat) (s s0 sk : σ) (content : List Byte) (merkle : Hash) (evs0 : List Event)
    (k : Nat) (fk : File) (atts : List (List Event)) (ev : Event) (e : Err)
    (hopen : openAndHash env filename s = (.ok (content, merkle), s0, evs0))
    (hfail : retries env W merkle content.length duration k ⟨content, 0⟩ s0
      = some (fk, sk, atts))
    (hev : ev ∈ (attempt env W merkle content.length duration fk sk).events)
    (hwallet : ev.walletError = some e)
    (hfuel : k < fuel) :
    (proposeContract env W fuel filename duration s).outcome = .failed e
      ∧ ∃ host ws, (proposeContract env W fuel filename duration s).events
            = evs0 ++ (atts.flatten ++ .randomHost (.ok host) :: ws)
          ∧ (∀ w ∈ ws, w.isWallet = true) ∧ ws.getLast? = some ev := by
  obtain ⟨m, rfl⟩ : ∃ m, fuel = k + (m + 1) := ⟨fuel - k - 1, by omega⟩
  obtain ⟨hres, host, ws, hevs, hw, hlast⟩ :=
    attempt_wallet_facts env W merkle content.length duration fk sk ev e hev hwallet
  rw [proposeContract_of_open env W _ filename duration s s0 content merkle evs0 hopen,
    proposeLoop_retries env W merkle content.length duration k _ fk _ sk atts (m + 1) hfail,
    proposeLoop_fatal env W merkle content.length duration m fk sk e hres, hevs]
  exact ⟨rfl, host, ws, rfl, hw, hlast⟩

/-- The abort of C9 with a wallet that refuses to sign. -/
theorem C9_witness :
    (proposeContract lockedEnv widths64 5 "f" 2000 (worldOf [hostA, hostB])).outcome
      = .failed "wallet locked" :=
  (C9_wallet_error lockedEnv widths64 5 "f" 2000 (worldOf [hostA, hostB])
    _ _ _ _ _ 0 _ _ (.signTransaction "tx" false (.error "wallet locked")) "wallet locked"
    rfl rfl (by decide) rfl (by decide)).1

/-- C10: against a finite directory that holds at most n hosts after the file
was opened (RandomHost answers only hosts not yet flagged, FlagHost and the
wallet calls succeed), proposeContract with more than n passes of fuel does
not run out of fuel, starts at most n negotiations, no two with the same
host, and ends with a piece or with the error that RandomHost returned last. -/
theorem C10_loop_terminates (env : Env σ) (active : σ → Finset Nat)
    (hdir : FiniteDirectory env active) (W : Widths) (fuel : Nat) (filename : String)
    (duration : Nat) (s s0 : σ) (content : List Byte) (merkle : Hash) (evs0 : List Event)
    (n : Nat)
    (hopen : openAndHash env filename s = (.ok (content, merkle), s0, evs0))
    (hn : (active s0).card ≤ n)
    (hfuel : n < fuel) :
    (proposeContract env W fuel filename duration s).outcome ≠ .outOfFuel
      ∧ (calledHosts (proposeContract env W fuel filename duration s).events).length ≤ n
      ∧ ((calledHosts (proposeContract env W fuel filename duration s).events).map
          (fun h => h.ID)).Nodup
      ∧ ((∃ p, (proposeContract env W fuel filename duration s).outcome = .done p)
        ∨ (∃ e, (proposeContract env W fuel filename duration s).outcome = .failed e
          ∧ (proposeContract env W fuel filename duration s).events.getLast?
              = some (.randomHost (.error e)))) := by
  have h0 := openAndHash_events_of_eq env filename s s0 _ evs0 hopen
  obtain ⟨i1, i2, i3, _, i5⟩ := proposeLoop_directory env active hdir W merkle content.length
    duration fuel n ⟨content, 0⟩ s0 hn hfuel
  have hc : calledHosts (proposeContract env W fuel filename duration s).events
      = calledHosts (proposeLoop env W merkle content.length duration fuel
          ⟨content, 0⟩ s0).events := by
    rw [proposeContract_of_open env W _ filename duration s s0 content merkle evs0 hopen]
    show calledHosts (evs0 ++ _) = _
    rw [calledHosts_append, calledHosts_nil_of evs0 (fun ev hev => (h0 ev hev).2.1)]
    rfl
  rw [hc]
  rw [proposeContract_of_open env W _ filename duration s s0 content merkle evs0 hopen]
  refine ⟨i1, i2, i3, ?_⟩
  rcases i5 with ⟨p, hp⟩ | ⟨e, he, hlast⟩
  · exact Or.inl ⟨p, hp⟩
  · refine Or.inr ⟨e, he, ?_⟩
    show List.getLast? (evs0 ++ _) = _
    rw [List.getLast?_append, hlast]
    simp

/-- The bound of C10 for the directory of hosts A and B. -/
theorem C10_witness :
    (proposeContract (simEnv netReject) widths64 3 "f" 2000 (worldOf [hostA, hostB])).outcome
        ≠ .outOfFuel
      ∧ (calledHosts (proposeContract (simEnv netReject) widths64 3 "f" 2000
          (worldOf [hostA, hostB])).events).length ≤ 2 :=
  have h := C10_loop_terminates (simEnv netReject) activeHosts (simEnv_directory netReject)
    widths64 3 "f" 2000 (worldOf [hostA, hostB]) _ _ _ _ 2 rfl (by decide) (by decide)
  ⟨h.1, h.2.1⟩

end Sia
